import Mathlib

/-!
# Verification of the synapse gateway core

Shallow embedding of the request-dispatch / resilience layer of the
`synapse` gateway (Python), together with proofs of the specified
properties.

Conventions used throughout:

* Python `dict`s are association lists `List (String × α)`; keys are
  unique in every dict the Python code can actually build, and the
  operations below agree with Python semantics on such lists
  (`alistGet` = `d.get(k)`, `alistSet` = `d[k] = v`,
  `alistPop` = `d.pop(k, None)` observed through `get`/membership).
* Python scalars (`None`, bool, float/int, str) and JSON-ish payloads
  are the inductive `JVal`; `JVal.null` models Python `None`.
* Machine floats (times, delays) are modelled as rationals `ℚ`; the
  code only ever compares and copies them.
-/

namespace Synapse

/-- JSON-like value: the dynamic payloads (`dict`/`list`/`str`/numbers)
flowing through the gateway routes. `null` models Python `None`. -/
inductive JVal where
  | null : JVal
  | bool : Bool → JVal
  | num : ℚ → JVal
  | str : String → JVal
  | arr : List JVal → JVal
  | obj : List (String × JVal) → JVal
deriving Repr

/-- Python's `value is None`. -/
def JVal.isNull : JVal → Bool
  | .null => true
  | _ => false

/-- Python's `value == s` for a string literal `s` (on non-string values the
comparison is `False`; Python never equates a `str` with a non-`str` here). -/
def JVal.eqStr (v : JVal) (s : String) : Bool :=
  match v with
  | .str t => t = s
  | _ => false

/-- A Python dict with string keys. -/
abbrev PyDict := List (String × JVal)

/-- `d.get(k)` on an association list: first matching key. -/
def alistGet {α : Type} (o : List (String × α)) (k : String) : Option α :=
  (o.find? (fun e => e.1 = k)).map (·.2)

/-- `k in d`. -/
def alistMem {α : Type} (o : List (String × α)) (k : String) : Bool :=
  o.any (fun e => e.1 = k)

/-- `d[k] = v`: replace the value at the key in place, else append. -/
def alistSet {α : Type} : List (String × α) → String → α → List (String × α)
  | [], k, v => [(k, v)]
  | e :: rest, k, v =>
      if e.1 = k then (k, v) :: rest else e :: alistSet rest k v

/-- `d.pop(k, None)`: remove the key (observed through `get`/membership). -/
def alistPop {α : Type} (o : List (String × α)) (k : String) :
    List (String × α) :=
  o.filter (fun e => e.1 ≠ k)

/-- Python truthiness of a `JVal` (`bool(x)`). -/
def pyTruthy : JVal → Bool
  | .null => false
  | .bool b => b
  | .num q => q ≠ 0
  | .str s => s ≠ ""
  | .arr l => !l.isEmpty
  | .obj o => !o.isEmpty

/-! ## Circuit breaker (`gateway/src/backend_client.py`, `CircuitBreaker`) -/

/-- The three breaker states (`"closed" | "open" | "half-open"`). -/
inductive BreakerState where
  | closed : BreakerState
  | opened : BreakerState
  | halfOpen : BreakerState
deriving DecidableEq, Repr

/-- `CircuitBreaker` dataclass: `threshold=5`, `cooldown=30.0`,
`failure_count=0`, `last_failure=0.0`, `state="closed"`. -/
structure CircuitBreaker where
  threshold : Nat
  cooldown : ℚ
  failure_count : Nat
  last_failure : ℚ
  state : BreakerState
deriving DecidableEq, Repr

/-- `CircuitBreaker.record_failure`; `now` is `time.monotonic()`. -/
def CircuitBreaker.record_failure (cb : CircuitBreaker) (now : ℚ) :
    CircuitBreaker :=
  let fc := cb.failure_count + 1
  { cb with
    failure_count := fc
    last_failure := now
    state := if cb.threshold ≤ fc then .opened else cb.state }

/-- `CircuitBreaker.record_success`. -/
def CircuitBreaker.record_success (cb : CircuitBreaker) : CircuitBreaker :=
  { cb with failure_count := 0, state := .closed }

/-- `CircuitBreaker.allow_request`; returns the boolean together with the
breaker after the call (the open branch mutates `state` to half-open). -/
def CircuitBreaker.allow_request (cb : CircuitBreaker) (now : ℚ) :
    Bool × CircuitBreaker :=
  match cb.state with
  | .closed => (true, cb)
  | .opened =>
      if cb.cooldown < now - cb.last_failure then
        (true, { cb with state := .halfOpen })
      else (false, cb)
  | .halfOpen => (true, cb)

/-- Breakers reachable from construction (`CircuitBreaker(threshold, cooldown)`
starts with `failure_count = 0`, `last_failure = 0.0`, `state = closed`)
by any interleaving of the three methods. -/
inductive CircuitBreaker.Reachable : CircuitBreaker → Prop where
  | init (threshold : Nat) (cooldown : ℚ) :
      Reachable ⟨threshold, cooldown, 0, 0, .closed⟩
  | fail {cb : CircuitBreaker} (now : ℚ) :
      Reachable cb → Reachable (cb.record_failure now)
  | succ {cb : CircuitBreaker} :
      Reachable cb → Reachable cb.record_success
  | allow {cb : CircuitBreaker} (now : ℚ) :
      Reachable cb → Reachable (cb.allow_request now).2

/-! ## Backend dispatch (`BackendClient.request`) -/

/-- Outcome of one network attempt, as distinguished by the `except` clause
of `BackendClient.request`: either a connection is established and httpx
returns a response with some HTTP status (httpx does not raise on 4xx/5xx),
or a connect-class error (`httpx.ConnectError` / `httpx.ConnectTimeout`)
is raised. -/
inductive AttemptOutcome where
  | response (status : Nat) : AttemptOutcome
  | connectFail : AttemptOutcome
deriving DecidableEq, Repr

/-- Error class with which `request` can fail. -/
inductive ReqError where
  /-- `httpx.ConnectError("Circuit breaker open for ...")` raised when the
  breaker disallows the call (a connection-refused-class error). -/
  | breakerOpen : ReqError
  /-- the last connect-class exception, re-raised after the retry loop. -/
  | connectError : ReqError
  /-- `raise last_exc` with `last_exc = None` when `max_retries == 0`. -/
  | noLastError : ReqError
deriving DecidableEq, Repr

/-- Result of `request`. -/
inductive ReqResult where
  | ok (status : Nat) : ReqResult
  | err (e : ReqError) : ReqResult
deriving DecidableEq, Repr

/-- Observable log of one `request` call: result, final breaker, number of
network attempts performed, number of `record_failure` calls, and the
`asyncio.sleep` delays in order. -/
structure ReqLog where
  result : ReqResult
  breaker : CircuitBreaker
  attempts : Nat
  failures : Nat
  sleeps : List ℚ
deriving DecidableEq, Repr

/-- `delays = [0.5, 1.0, 2.0]`. -/
def delays : List ℚ := [1/2, 1, 2]

/-- The `for attempt in range(max_retries)` loop of `BackendClient.request`.
`oracle` gives the outcome of each network attempt, `tm` the monotonic time
at which attempt `i` fails; `attempt` is the loop index and `remaining`
the number of loop iterations left (`maxRetries - attempt`). -/
def requestGo (oracle : Nat → AttemptOutcome) (tm : Nat → ℚ)
    (maxRetries : Nat) : Nat → Nat → CircuitBreaker → ReqLog
  | _, 0, br =>
      { result := .err (if maxRetries = 0 then .noLastError else .connectError)
        breaker := br, attempts := 0, failures := 0, sleeps := [] }
  | attempt, remaining + 1, br =>
      match oracle attempt with
      | .response status =>
          { result := .ok status, breaker := br.record_success
            attempts := 1, failures := 0, sleeps := [] }
      | .connectFail =>
          let br2 := br.record_failure (tm attempt)
          let rest := requestGo oracle tm maxRetries (attempt + 1) remaining br2
          let sl : List ℚ :=
            if attempt < maxRetries - 1 then
              [delays.getD (min attempt (delays.length - 1)) 0]
            else []
          { result := rest.result, breaker := rest.breaker
            attempts := rest.attempts + 1, failures := rest.failures + 1
            sleeps := sl ++ rest.sleeps }

/-- `BackendClient.request(backend, method, url, max_retries=n)`: consult the
backend's breaker once (`checkTime` = the `time.monotonic()` of that check),
raising `httpx.ConnectError` if disallowed, then run the retry loop. -/
def request (oracle : Nat → AttemptOutcome) (tm : Nat → ℚ) (checkTime : ℚ)
    (br : CircuitBreaker) (maxRetries : Nat) : ReqLog :=
  let gate := br.allow_request checkTime
  if gate.1 then requestGo oracle tm maxRetries 0 maxRetries gate.2
  else
    { result := .err .breakerOpen, breaker := gate.2
      attempts := 0, failures := 0, sleeps := [] }

/-- The backoff schedule as worded in the spec: 0.5s, then 1.0s, then 2.0s
with the last delay repeating. -/
def claimedDelay (i : Nat) : ℚ :=
  if i = 0 then 1/2 else if i = 1 then 1 else 2

/-! ## Profile-default injection
(`gateway/src/router_llm.py`, `_apply_model_load_defaults_to_payload`) -/

/-- `PROFILE_DEFAULT_APPLY_KEYS`. -/
def PROFILE_DEFAULT_APPLY_KEYS : List String :=
  ["temperature", "top_p", "top_k", "min_p", "repeat_penalty", "max_tokens"]

/-- `{"low", "medium", "high"}` in the `reasoning_effort` check. -/
def REASONING_LEVELS : List String := ["low", "medium", "high"]

/-- Python `\s` on the ASCII range (the characters that matter to this
repository's payloads): space, tab, newline, carriage return, vertical tab,
form feed. -/
def pyWhitespace (c : Char) : Bool :=
  c = ' ' || c = '\t' || c = '\n' || c = '\r' || c = '\x0b' || c = '\x0c'

/-- ASCII lowercasing of one character (Python `str.lower()` on the ASCII
identifiers and directives this code handles). -/
def pyLowerChar (c : Char) : Char :=
  if 'A' ≤ c ∧ c ≤ 'Z' then Char.ofNat (c.toNat + 32) else c

/-- ASCII uppercasing of one character (Python `str.upper()`). -/
def pyUpperChar (c : Char) : Char :=
  if 'a' ≤ c ∧ c ≤ 'z' then Char.ofNat (c.toNat - 32) else c

/-- Python `s.upper()` (ASCII). -/
def pyUpper (s : String) : String := ⟨s.data.map pyUpperChar⟩

/-- Split a character list on a separator character, keeping empty segments
(`"a\nb".split("\n") = ["a", "b"]`, `"".split("\n") = [""]`). -/
def splitCharsOn (sep : Char) : List Char → List (List Char)
  | [] => [[]]
  | c :: rest =>
    let r := splitCharsOn sep rest
    if c = sep then [] :: r
    else (c :: r.headD []) :: r.tail

/-- Strip a literal prefix from a character list, returning the remainder. -/
def stripChars : List Char → List Char → Option (List Char)
  | [], cs => some cs
  | p :: ps, c :: cs => if c = p then stripChars ps cs else none
  | _ :: _, [] => none

/-- One line of `REASONING_LINE_RE = (?im)^\s*reasoning\s*:\s*(low|medium|high)\s*$`:
whether a single newline-free segment matches the pattern (the `(?i)` flag is
modelled by lowercasing the line; the pattern itself is lowercase). -/
def reasoningLineMatch (line : List Char) : Bool :=
  let cs := (line.map pyLowerChar).dropWhile pyWhitespace
  match stripChars "reasoning".toList cs with
  | none => false
  | some r1 =>
    match r1.dropWhile pyWhitespace with
    | ':' :: r3 =>
      let r4 := r3.dropWhile pyWhitespace
      REASONING_LEVELS.any fun lvl =>
        match stripChars lvl.toList r4 with
        | some r5 => (r5.dropWhile pyWhitespace).isEmpty
        | none => false
    | _ => false

/-- `REASONING_LINE_RE.search(content)`: with the `(?m)` flag, `^`/`$` anchor
at line boundaries, so the search succeeds iff some `\n`-separated segment
matches the line pattern (leading/trailing `\s*` crossing a newline always
leaves a fully matching segment). -/
def reasoningSearch (content : String) : Bool :=
  (splitCharsOn '\n' content.data).any reasoningLineMatch

/-- `isinstance(message, dict) and message.get("role") == "system"`. -/
def isSystemMessage (m : JVal) : Bool :=
  match m with
  | .obj o => ((alistGet o "role").getD .null).eqStr "system"
  | _ => false

/-- `{"role": "system", "content": content}`. -/
def sysMessage (content : String) : JVal :=
  .obj [("role", .str "system"), ("content", .str content)]

/-- In-place update of the first system message of a message list
(`first_system["content"] = ...` mutates the dict where it sits). -/
def modifyFirstSystem (f : JVal → JVal) : List JVal → List JVal
  | [] => []
  | m :: rest =>
      if isSystemMessage m then f m :: rest
      else m :: modifyFirstSystem f rest

/-- `payload.get("messages")` if it is a list, else the fresh `[]` the code
substitutes (`messages = []; payload["messages"] = messages`). -/
def messagesOf (payload : PyDict) : List JVal :=
  match alistGet payload "messages" with
  | some (.arr l) => l
  | _ => []

/-- The message-list transformation of the `system_prompt` block: insert a
system message at index 0 unless one is already present. -/
def applySystemPromptMsgs (m : List JVal) (s : String) : List JVal :=
  if m.any isSystemMessage then m else sysMessage s :: m

/-- The `system_prompt` block of `_apply_model_load_defaults_to_payload`,
entered with a non-empty string prompt `s`. Returns the updated payload and
whether `"system_prompt"` was appended to `applied`. In every path of the
Python block `payload["messages"]` ends up holding the resulting list
(either by explicit assignment, or unchanged because the pre-existing list
is only read — which `alistSet` with the unchanged value reproduces). -/
def applySystemPrompt (payload : PyDict) (s : String) : PyDict × Bool :=
  let msgs := messagesOf payload
  (alistSet payload "messages" (.arr (applySystemPromptMsgs msgs s)),
   !msgs.any isSystemMessage)

/-- `first_system.get("content")` of a message dict. -/
def contentOf (m : JVal) : Option JVal :=
  match m with
  | .obj o => alistGet o "content"
  | _ => none

/-- `first_system["content"] = newContent`. -/
def setContent (newContent : String) (m : JVal) : JVal :=
  match m with
  | .obj o => .obj (alistSet o "content" (.str newContent))
  | _ => m

/-- The message-list transformation of the `reasoning_effort` block:
insert a `"Reasoning: <eff>"` system message when there is none, else merge
the directive into the first system message unless its string content
already matches `REASONING_LINE_RE` (non-string content is left alone). -/
def applyReasoningMsgs (m : List JVal) (eff : String) : List JVal :=
  let line := "Reasoning: " ++ eff
  match m.filter isSystemMessage with
  | [] => sysMessage line :: m
  | fs :: _ =>
    match contentOf fs with
    | some (.str c) =>
      if reasoningSearch c then m
      else
        modifyFirstSystem
          (setContent (if c = "" then line else line ++ "\n\n" ++ c)) m
    | _ => m

/-- Whether the `reasoning_effort` block appends to `applied`. -/
def applyReasoningFlag (m : List JVal) : Bool :=
  match m.filter isSystemMessage with
  | [] => true
  | fs :: _ =>
    match contentOf fs with
    | some (.str c) => !reasoningSearch c
    | _ => false

/-- The `reasoning_effort` block of `_apply_model_load_defaults_to_payload`,
entered with `eff ∈ {"low", "medium", "high"}`; `eff` is otherwise unused by
the flag, which records whether an insert/merge happened. -/
def applyReasoning (payload : PyDict) (eff : String) : PyDict × Bool :=
  let msgs := messagesOf payload
  (alistSet payload "messages" (.arr (applyReasoningMsgs msgs eff)),
   applyReasoningFlag msgs)

/-- One iteration of the fill-only loop over `PROFILE_DEFAULT_APPLY_KEYS`:
`if key in profile and key not in payload: payload[key] = profile[key]`. -/
def fillKey (profile : PyDict) (acc : PyDict × List String) (k : String) :
    PyDict × List String :=
  match alistGet profile k with
  | some v =>
      if alistMem acc.1 k then acc
      else (alistSet acc.1 k v, acc.2 ++ [k])
  | none => acc

/-- The `system_prompt` conditional of `_apply_model_load_defaults_to_payload`
(`if isinstance(system_prompt, str) and system_prompt:`). -/
def spStage (profile : PyDict) (acc : PyDict × List String) :
    PyDict × List String :=
  match alistGet profile "system_prompt" with
  | some (.str s) =>
      if s = "" then acc
      else
        let r := applySystemPrompt acc.1 s
        (r.1, if r.2 then acc.2 ++ ["system_prompt"] else acc.2)
  | _ => acc

/-- The `reasoning_effort` conditional of
`_apply_model_load_defaults_to_payload`
(`if isinstance(reasoning_effort, str) and reasoning_effort in {...}:`). -/
def reStage (profile : PyDict) (acc : PyDict × List String) :
    PyDict × List String :=
  match alistGet profile "reasoning_effort" with
  | some (.str e) =>
      if e ∈ REASONING_LEVELS then
        let r := applyReasoning acc.1 e
        (r.1, if r.2 then acc.2 ++ ["reasoning_effort"] else acc.2)
      else acc
  | _ => acc

/-- `_apply_model_load_defaults_to_payload(payload, model_id)`, with the
profile already fetched from the store (`profile = _get_model_profile(...)`).
Returns the payload after mutation together with the `applied` key list the
Python function returns. -/
def _apply_model_load_defaults_to_payload (profile : PyDict) (payload : PyDict) :
    PyDict × List String :=
  if profile.isEmpty then (payload, [])
  else
    reStage profile (spStage profile
      (PROFILE_DEFAULT_APPLY_KEYS.foldl (fillKey profile) (payload, [])))

/-- Observation helper: the system prompt the `system_prompt` block acts on,
when its guard (`isinstance(..., str) and ...`) passes. -/
def spValidOf (profile : PyDict) : Option String :=
  match alistGet profile "system_prompt" with
  | some (.str s) => if s = "" then none else some s
  | _ => none

/-- Observation helper: the effort level the `reasoning_effort` block acts
on, when its guard passes. -/
def reValidOf (profile : PyDict) : Option String :=
  match alistGet profile "reasoning_effort" with
  | some (.str e) => if e ∈ REASONING_LEVELS then some e else none
  | _ => none

/-! ## Split-model collapsing
(`gateway/src/router_llm.py`, `_parse_split_model_id` / `_collapse_split_models`) -/

/-- ASCII decimal digit (Python `\d` on the identifiers this backend emits). -/
def isDigitChar (c : Char) : Bool := c.isDigit

/-- Numeric value of a digit string (`int(...)`, which cannot fail on the
digit runs the parser extracts). -/
def digitsToNat (cs : List Char) : Nat :=
  cs.foldl (fun acc c => acc * 10 + (c.toNat - '0'.toNat)) 0

/-- `_parse_split_model_id`: match
`^(?P<base>.+)-(?P<part>\d+)-of-(?P<total>\d+)$` and apply the
`part < 1 or total < 2 or part > total` check. The anchored pattern has a
unique decomposition: `total` is the maximal trailing digit run, preceded by
the literal `-of-`, preceded by the maximal digit run `part`, preceded by a
literal `-`, preceded by a non-empty `base` (greedy `.+` cannot shift the
split because each digit run is bounded by a non-digit). -/
def _parse_split_model_id (model_id : String) : Option (String × Nat × Nat) :=
  let cs := model_id.toList
  let totalDigits := (cs.reverse.takeWhile isDigitChar).reverse
  if totalDigits.isEmpty then none
  else
    let r1 := cs.take (cs.length - totalDigits.length)
    if r1.reverse.take 4 = "-fo-".toList then
      let r2 := r1.take (r1.length - 4)
      let partDigits := (r2.reverse.takeWhile isDigitChar).reverse
      if partDigits.isEmpty then none
      else
        match (r2.take (r2.length - partDigits.length)).reverse with
        | '-' :: baseRev =>
          if baseRev.isEmpty then none
          else
            let base := String.mk baseRev.reverse
            let part := digitsToNat partDigits
            let total := digitsToNat totalDigits
            if part < 1 ∨ total < 2 ∨ total < part then none
            else some (base, part, total)
        | _ => none
    else none

/-- `_parse_split_model_id(model["id"])` for a registry entry: `None` unless
the entry is a dict whose `"id"` is a string parsing as a split id. -/
def modelSplit (m : JVal) : Option (String × Nat × Nat) :=
  match m with
  | .obj o =>
    match alistGet o "id" with
    | some (.str s) => _parse_split_model_id s
    | _ => none
  | _ => none

/-- The `(base, total)` group key of a registry entry, when split. -/
def modelKey (m : JVal) : Option (String × Nat) :=
  (modelSplit m).map (fun x => (x.1, x.2.2))

/-- The per-key entry list built by the first pass of
`_collapse_split_models` (`groups.setdefault(key, []).append((part, model))`
appends in list order, so `groups.get(key)` is exactly this `filterMap`). -/
def groupOf (models : List JVal) (key : String × Nat) : List (Nat × JVal) :=
  models.filterMap (fun m =>
    match modelSplit m with
    | some x => if (x.1, x.2.2) = key then some (x.2.1, m) else none
    | none => none)

/-- `_status_failed(model)`. -/
def _status_failed (m : JVal) : Bool :=
  if pyTruthy m = false then false
  else
    match m with
    | .obj o =>
      match alistGet o "status" with
      | some (.obj st) => pyTruthy ((alistGet st "failed").getD .null)
      | _ => false
    | _ => false

/-- `[entry.get("status", {}).get("value") for _, entry in entries
if isinstance(entry.get("status"), dict)]` (an element is `none` when the
status dict lacks a `"value"` key). -/
def statusValues (entries : List (Nat × JVal)) : List (Option JVal) :=
  entries.filterMap (fun e =>
    match e.2 with
    | .obj o =>
      match alistGet o "status" with
      | some (.obj st) => some (alistGet st "value")
      | _ => none
    | _ => none)

/-- `entries.sort(key=lambda item: item[0])` (Python's stable sort by part
number; only the multiset matters to the merge). -/
def sortByPart (entries : List (Nat × JVal)) : List (Nat × JVal) :=
  List.insertionSort (fun a b => a.1 ≤ b.1) entries

/-- `primary = next((entry for part, entry in entries if part == 1),
entries[0][1])` on the sorted entry list. -/
def primaryOf (entries : List (Nat × JVal)) : JVal :=
  match (sortByPart entries).find? (fun e => e.1 = 1) with
  | some e => e.2
  | none => ((sortByPart entries).headD (0, .null)).2

/-- `any(value == s for value in all_values)`. -/
def anyVal (vals : List (Option JVal)) (s : String) : Bool :=
  vals.any (fun v => (v.getD .null).eqStr s)

/-- `all(value == "unloaded" for value in all_values
if isinstance(value, str))`. -/
def allUnloaded (vals : List (Option JVal)) : Bool :=
  vals.all (fun v =>
    match v with
    | some (.str s) => s = "unloaded"
    | _ => true)

/-- The mutation of `merged_status`: most-permissive status value wins, then
`failed` is set when any part failed. -/
def mergeStatusObj (st : PyDict) (vals : List (Option JVal)) (failed : Bool) :
    PyDict :=
  let st1 :=
    if anyVal vals "loaded" then alistSet st "value" (.str "loaded")
    else if anyVal vals "loading" then alistSet st "value" (.str "loading")
    else if anyVal vals "unloading" then alistSet st "value" (.str "unloading")
    else if allUnloaded vals then alistSet st "value" (.str "unloaded")
    else st
  if failed then alistSet st1 "failed" (.bool true) else st1

/-- The merge of one `(base, total)` group (the body of the second pass of
`_collapse_split_models` from `entries.sort(...)` on); `entries` is
non-empty at every call site. When the primary entry's status is not a dict
the primary is emitted unchanged. -/
def mergeGroup (entries : List (Nat × JVal)) : JVal :=
  let sorted := sortByPart entries
  let primary := primaryOf entries
  match primary with
  | .obj po =>
    (match alistGet po "status" with
     | some (.obj st) =>
       .obj (alistSet po "status"
         (.obj (mergeStatusObj st (statusValues sorted)
           (sorted.any (fun e => _status_failed e.2)))))
     | _ => primary)
  | _ => primary

/-- The second pass of `_collapse_split_models`: walk the list, pass
non-split entries through, emit the merged entry the first time a group key
is seen, skip later parts of an already-emitted group. -/
def collapseGo (models : List JVal) : List JVal → List (String × Nat) → List JVal
  | [], _ => []
  | m :: rest, emitted =>
    match modelKey m with
    | none => m :: collapseGo models rest emitted
    | some key =>
      if key ∈ emitted then collapseGo models rest emitted
      else
        match groupOf models key with
        | [] => m :: collapseGo models rest (key :: emitted)
        | e :: es => mergeGroup (e :: es) :: collapseGo models rest (key :: emitted)

/-- `_collapse_split_models(models)` (with `if not groups: return models`
as the early exit when no entry parses as a split id). -/
def _collapse_split_models (models : List JVal) : List JVal :=
  if models.all (fun m => (modelKey m).isNone) then models
  else collapseGo models models []

/-- Observation helper: the status dict of an entry, when it is a dict. -/
def statusObjOf (m : JVal) : Option PyDict :=
  match m with
  | .obj o =>
    match alistGet o "status" with
    | some (.obj st) => some st
    | _ => none
  | _ => none

/-- Observation helper: `model["status"]["value"]`. -/
def statusValOf (m : JVal) : Option JVal :=
  (statusObjOf m).bind (fun st => alistGet st "value")

/-! ## Terminal feed ring buffer (`gateway/src/terminal_feed.py`) -/

/-- A buffered terminal event (the fields `backlog` inspects; `ts` and
`instance` ride along in the real dict and are irrelevant to filtering). -/
structure TEvent where
  source : String
  level : String
  message : String
deriving DecidableEq, Repr

/-- `_LEVEL_RANK`. -/
def LEVEL_RANK : List (String × Nat) :=
  [("DEBUG", 10), ("INFO", 20), ("WARNING", 30), ("ERROR", 40), ("CRITICAL", 50)]

/-- `_LEVEL_RANK.get(s, d)`. -/
def levelRankOf (s : String) (d : Nat) : Nat :=
  (alistGet LEVEL_RANK s).getD d

/-- `deque(maxlen=cap).append(e)`: the buffer is kept oldest-first; on
overflow the oldest entry is evicted. -/
def pushEvent (cap : Nat) (buf : List TEvent) (e : TEvent) : List TEvent :=
  let b := buf ++ [e]
  b.drop (b.length - cap)

/-- Publish a sequence of events into the ring buffer. -/
def pushAll (cap : Nat) (buf : List TEvent) (es : List TEvent) : List TEvent :=
  es.foldl (pushEvent cap) buf

/-- The filter of the backlog loop: level rank at least `minRank`
(`_LEVEL_RANK.get(event["level"], 20)`), and — when the allow-set is
non-empty (`if allowed_sources and ...`; `None` and the empty set behave
identically) — source contained in it. -/
def backlogKeep (minRank : Nat) (allowed : List String) (e : TEvent) : Bool :=
  decide (minRank ≤ levelRankOf e.level 20) &&
  (allowed.isEmpty || allowed.contains e.source)

/-- The collection loop of `backlog`, over the newest-first buffer, with
`need` matching items still to collect (`need ≥ 1` at entry: the code's
`bounded_limit = max(1, ...)`). -/
def backlogGo (minRank : Nat) (allowed : List String) :
    Nat → List TEvent → List TEvent
  | _, [] => []
  | need, e :: rest =>
    if backlogKeep minRank allowed e then
      if need ≤ 1 then [e]
      else e :: backlogGo minRank allowed (need - 1) rest
    else backlogGo minRank allowed need rest

/-- `TerminalFeed.backlog(limit=..., min_level=..., allowed_sources=...)`:
clamp the limit to `max(1, min(limit, len(buffer)))`, rank the minimum level
(`_LEVEL_RANK.get(min_level.upper(), _LEVEL_RANK["INFO"])`), walk the buffer
newest-first collecting matches, and return them oldest-first. -/
def backlog (buf : List TEvent) (limit : Nat) (min_level : String)
    (allowed : List String) : List TEvent :=
  let bounded := max 1 (min limit buf.length)
  let minRank := levelRankOf (pyUpper min_level) 20
  (backlogGo minRank allowed bounded buf.reverse).reverse

/-! ## Model profile store (`gateway/src/model_profile_store.py`)

The store's in-memory state is `self._data["models"] : model_id ↦ record`;
each record is `{"updated_at": ..., "values": {...}}`. The wall-clock
`updated_at` stamp and the atomic file persistence (`_persist`) are not
observable through `get_profile`/`set_profile`/`patch_profile` return values,
so the state is modelled as the `model_id ↦ values` mapping. -/

/-- The `models` mapping of the store. -/
abbrev ProfileStore := List (String × PyDict)

/-- `ModelProfileStore.get_profile(model_id)`: `dict(record["values"])`,
or `{}` when the model has no record. -/
def get_profile (s : ProfileStore) (model_id : String) : PyDict :=
  (alistGet s model_id).getD []

/-- `ModelProfileStore.set_profile(model_id, values)`: drop `None` values;
store the cleaned dict, or remove the record entirely when it is empty.
Returns the new store and the returned `dict(clean_values)`. -/
def set_profile (s : ProfileStore) (model_id : String) (values : PyDict) :
    ProfileStore × PyDict :=
  let clean := values.filter (fun e => !e.2.isNull)
  if clean.isEmpty then (alistPop s model_id, clean)
  else (alistSet s model_id clean, clean)

/-- One step of the `patch_profile` merge loop: `None` deletes the key,
anything else sets it. -/
def patchStep (m : PyDict) (e : String × JVal) : PyDict :=
  if e.2.isNull then alistPop m e.1 else alistSet m e.1 e.2

/-- `ModelProfileStore.patch_profile(model_id, updates)`: merge the updates
into the current values; store the merge, or remove the record entirely when
the merge is empty. Returns the new store and the returned `dict(merged)`. -/
def patch_profile (s : ProfileStore) (model_id : String) (updates : PyDict) :
    ProfileStore × PyDict :=
  let merged := updates.foldl patchStep (get_profile s model_id)
  if merged.isEmpty then (alistPop s model_id, merged)
  else (alistSet s model_id merged, merged)

/-! ## Profile update normalization
(`gateway/src/router_llm.py`, `_normalize_profile_updates`, string branch) -/

/-- Python `str.strip()` (over the ASCII whitespace the gateway sees). -/
def pyStrip (s : String) : String :=
  ⟨((s.toList.dropWhile pyWhitespace).reverse.dropWhile pyWhitespace).reverse⟩

/-- The `kind == "string"` branch of `_normalize_profile_updates` (the branch
that validates `system_prompt`): non-strings are rejected with a 400, and a
stripped-empty string is normalized to `None` (`parsed if parsed else None`),
which `patch_profile` later interprets as key deletion. -/
def normalizeStringField : JVal → Except String JVal
  | .str s =>
      let parsed := pyStrip s
      .ok (if parsed = "" then .null else .str parsed)
  | _ => .error "must be a string"

/-- A concrete two-part split model list (`foo-1-of-2` loaded, `foo-2-of-2`
unloaded), as the backend registry would report it. -/
def c7ExampleModels : List JVal :=
  [.obj [("id", .str "foo-1-of-2"),
         ("status", .obj [("value", .str "loaded")])],
   .obj [("id", .str "foo-2-of-2"),
         ("status", .obj [("value", .str "unloaded")])]]

/-! # Lemmas and theorems -/

/-! ## Association list lemmas -/

theorem alistGet_nil {α : Type} (k : String) :
    alistGet ([] : List (String × α)) k = none := rfl

theorem alistGet_cons {α : Type} (e : String × α) (rest : List (String × α))
    (k : String) :
    alistGet (e :: rest) k = if e.1 = k then some e.2 else alistGet rest k := by
  by_cases h : e.1 = k <;> simp [alistGet, List.find?_cons, h]

theorem alistMem_cons {α : Type} (e : String × α) (rest : List (String × α))
    (k : String) :
    alistMem (e :: rest) k = (decide (e.1 = k) || alistMem rest k) := by
  simp [alistMem]

theorem alistSet_cons {α : Type} (e : String × α) (rest : List (String × α))
    (k : String) (v : α) :
    alistSet (e :: rest) k v =
      if e.1 = k then (k, v) :: rest else e :: alistSet rest k v := rfl

theorem alistPop_cons {α : Type} (e : String × α) (rest : List (String × α))
    (k : String) :
    alistPop (e :: rest) k =
      if e.1 = k then alistPop rest k else e :: alistPop rest k := by
  by_cases h : e.1 = k <;> simp [alistPop, h]

theorem alistGet_set_self {α : Type} (o : List (String × α)) (k : String) (v : α) :
    alistGet (alistSet o k v) k = some v := by
  induction o with
  | nil => simp [alistSet, alistGet_cons, alistGet_nil]
  | cons e rest ih =>
    rw [alistSet_cons]
    by_cases h : e.1 = k
    · rw [if_pos h, alistGet_cons, if_pos rfl]
    · rw [if_neg h, alistGet_cons, if_neg h]
      exact ih

theorem alistGet_set_ne {α : Type} (o : List (String × α)) {k k' : String}
    (h : k' ≠ k) (v : α) : alistGet (alistSet o k v) k' = alistGet o k' := by
  induction o with
  | nil =>
    rw [show alistSet ([] : List (String × α)) k v = [(k, v)] from rfl,
      alistGet_cons, if_neg (fun hk => h hk.symm), alistGet_nil]
  | cons e rest ih =>
    rw [alistSet_cons]
    by_cases he : e.1 = k
    · rw [if_pos he, alistGet_cons, alistGet_cons, if_neg (fun hk => h hk.symm),
        if_neg (show ¬e.1 = k' from fun hk => h (he.symm.trans hk).symm)]
    · rw [if_neg he, alistGet_cons, alistGet_cons]
      by_cases he' : e.1 = k'
      · rw [if_pos he', if_pos he']
      · rw [if_neg he', if_neg he']
        exact ih

theorem alistGet_pop_self {α : Type} (o : List (String × α)) (k : String) :
    alistGet (alistPop o k) k = none := by
  induction o with
  | nil => rfl
  | cons e rest ih =>
    rw [alistPop_cons]
    by_cases h : e.1 = k
    · rw [if_pos h]; exact ih
    · rw [if_neg h, alistGet_cons, if_neg h]; exact ih

theorem alistGet_pop_ne {α : Type} (o : List (String × α)) {k k' : String}
    (h : k' ≠ k) : alistGet (alistPop o k) k' = alistGet o k' := by
  induction o with
  | nil => rfl
  | cons e rest ih =>
    rw [alistPop_cons]
    by_cases he : e.1 = k
    · rw [if_pos he, alistGet_cons, if_neg (he ▸ fun hk => h hk.symm)]
      exact ih
    · rw [if_neg he, alistGet_cons, alistGet_cons]
      by_cases he' : e.1 = k'
      · rw [if_pos he', if_pos he']
      · rw [if_neg he', if_neg he']
        exact ih

theorem alistMem_pop_self {α : Type} (o : List (String × α)) (k : String) :
    alistMem (alistPop o k) k = false := by
  induction o with
  | nil => rfl
  | cons e rest ih =>
    rw [alistPop_cons]
    by_cases h : e.1 = k
    · rw [if_pos h]; exact ih
    · rw [if_neg h, alistMem_cons, ih]
      simp [h]

theorem alistMem_set_self {α : Type} (o : List (String × α)) (k : String) (v : α) :
    alistMem (alistSet o k v) k = true := by
  induction o with
  | nil => simp [alistSet, alistMem]
  | cons e rest ih =>
    rw [alistSet_cons]
    by_cases h : e.1 = k
    · rw [if_pos h, alistMem_cons]; simp
    · rw [if_neg h, alistMem_cons, ih]; simp

theorem alistSet_ne_nil {α : Type} (o : List (String × α)) (k : String) (v : α) :
    alistSet o k v ≠ [] := by
  cases o with
  | nil => simp [alistSet]
  | cons e rest =>
    rw [alistSet_cons]
    by_cases h : e.1 = k <;> simp [h]

/-! ## C1: circuit breaker semantics -/

/-- Auxiliary invariant: every reachable breaker that is not closed has
accumulated at least `threshold` failures. -/
theorem breaker_nonclosed_inv {cb : CircuitBreaker} (h : cb.Reachable) :
    cb.state ≠ .closed → cb.threshold ≤ cb.failure_count := by
  induction h with
  | init t c => intro hs; exact absurd rfl hs
  | @fail cb now _ ih =>
    intro hs
    show cb.threshold ≤ cb.failure_count + 1
    by_cases hth : cb.threshold ≤ cb.failure_count + 1
    · exact hth
    · refine Nat.le_succ_of_le (ih ?_)
      simpa [CircuitBreaker.record_failure, hth] using hs
  | @succ cb _ ih => intro hs; exact absurd rfl hs
  | @allow cb now _ ih =>
    intro hs
    cases hstate : cb.state with
    | closed => simp [CircuitBreaker.allow_request, hstate] at hs
    | opened =>
      by_cases hc : cb.cooldown < now - cb.last_failure
      · simp only [CircuitBreaker.allow_request, hstate, if_pos hc]
        exact ih (by simp [hstate])
      · simp only [CircuitBreaker.allow_request, hstate, if_neg hc]
        exact ih (by simp [hstate])
    | halfOpen =>
      simp only [CircuitBreaker.allow_request, hstate]
      exact ih (by simp [hstate])

/-- C1: `record_success` resets `failure_count` to 0 and `state` to closed
from any state; on every reachable breaker, open implies
`failure_count ≥ threshold`; `allow_request` is true in closed, true in open
iff strictly more than `cooldown` has elapsed since `last_failure` (then
transitioning to half-open), false otherwise in open, and true in
half-open. -/
theorem C1_circuit_breaker_semantics (cb : CircuitBreaker) (now : ℚ)
    (hreach : cb.Reachable) :
    cb.record_success.failure_count = 0 ∧
    cb.record_success.state = .closed ∧
    (cb.state = .opened → cb.threshold ≤ cb.failure_count) ∧
    (cb.state = .closed → (cb.allow_request now).1 = true) ∧
    (cb.state = .opened →
      ((cb.allow_request now).1 = true ↔ cb.cooldown < now - cb.last_failure)) ∧
    (cb.state = .opened → cb.cooldown < now - cb.last_failure →
      (cb.allow_request now).2.state = .halfOpen) ∧
    (cb.state = .halfOpen → (cb.allow_request now).1 = true) := by
  refine ⟨rfl, rfl, ?_, ?_, ?_, ?_, ?_⟩
  · intro hs; exact breaker_nonclosed_inv hreach (by simp [hs])
  · intro hs; simp [CircuitBreaker.allow_request, hs]
  · intro hs
    by_cases hc : cb.cooldown < now - cb.last_failure <;>
      simp [CircuitBreaker.allow_request, hs, hc]
  · intro hs hc; simp [CircuitBreaker.allow_request, hs, hc]
  · intro hs; simp [CircuitBreaker.allow_request, hs]

/-- Witness for C1 at the freshly constructed default breaker and
`now = 31`. -/
theorem C1_circuit_breaker_semantics_witness :
    (⟨5, 30, 0, 0, .closed⟩ : CircuitBreaker).record_success.failure_count = 0 ∧
    (⟨5, 30, 0, 0, .closed⟩ : CircuitBreaker).record_success.state = .closed ∧
    ((⟨5, 30, 0, 0, .closed⟩ : CircuitBreaker).state = .opened →
      (⟨5, 30, 0, 0, .closed⟩ : CircuitBreaker).threshold ≤
        (⟨5, 30, 0, 0, .closed⟩ : CircuitBreaker).failure_count) ∧
    ((⟨5, 30, 0, 0, .closed⟩ : CircuitBreaker).state = .closed →
      ((⟨5, 30, 0, 0, .closed⟩ : CircuitBreaker).allow_request 31).1 = true) ∧
    ((⟨5, 30, 0, 0, .closed⟩ : CircuitBreaker).state = .opened →
      (((⟨5, 30, 0, 0, .closed⟩ : CircuitBreaker).allow_request 31).1 = true ↔
        (⟨5, 30, 0, 0, .closed⟩ : CircuitBreaker).cooldown <
          31 - (⟨5, 30, 0, 0, .closed⟩ : CircuitBreaker).last_failure)) ∧
    ((⟨5, 30, 0, 0, .closed⟩ : CircuitBreaker).state = .opened →
      (⟨5, 30, 0, 0, .closed⟩ : CircuitBreaker).cooldown <
          31 - (⟨5, 30, 0, 0, .closed⟩ : CircuitBreaker).last_failure →
      ((⟨5, 30, 0, 0, .closed⟩ : CircuitBreaker).allow_request 31).2.state = .halfOpen) ∧
    ((⟨5, 30, 0, 0, .closed⟩ : CircuitBreaker).state = .halfOpen →
      ((⟨5, 30, 0, 0, .closed⟩ : CircuitBreaker).allow_request 31).1 = true) :=
  C1_circuit_breaker_semantics ⟨5, 30, 0, 0, .closed⟩ 31 (.init 5 30)

/-! ## C2/C3/C4: retry loop of `BackendClient.request` -/

/-- The code's delay table agrees pointwise with the spec's
`0.5, 1.0, 2.0, 2.0, ...` schedule. -/
theorem delays_getD_eq_claimedDelay (j : Nat) :
    delays.getD (min j (delays.length - 1)) 0 = claimedDelay j := by
  match j with
  | 0 => rfl
  | 1 => rfl
  | (j + 2) =>
    rw [show delays.length - 1 = 2 from rfl,
      Nat.min_eq_right (by omega : 2 ≤ j + 2)]
    simp [delays, claimedDelay]

/-- Behaviour of the retry loop when every attempt raises a connect-class
error: one attempt and one recorded failure per loop iteration, the coded
backoff sleeps, and the final re-raise. -/
theorem requestGo_allFail (tm : Nat → ℚ) (maxR : Nat) :
    ∀ (remaining attempt : Nat) (br : CircuitBreaker),
      (requestGo (fun _ => .connectFail) tm maxR attempt remaining br).attempts
          = remaining ∧
      (requestGo (fun _ => .connectFail) tm maxR attempt remaining br).failures
          = remaining ∧
      (requestGo (fun _ => .connectFail) tm maxR attempt remaining br).result
          = .err (if maxR = 0 then .noLastError else .connectError) ∧
      (requestGo (fun _ => .connectFail) tm maxR attempt remaining br).sleeps
          = (List.range remaining).filterMap (fun j =>
              if attempt + j < maxR - 1 then
                some (delays.getD (min (attempt + j) (delays.length - 1)) 0)
              else none) := by
  intro remaining
  induction remaining with
  | zero => intro attempt br; exact ⟨rfl, rfl, rfl, rfl⟩
  | succ n ih =>
    intro attempt br
    obtain ⟨ha, hf, hr, hs⟩ :=
      ih (attempt + 1) (br.record_failure (tm attempt))
    refine ⟨?_, ?_, ?_, ?_⟩
    · simpa [requestGo] using ha
    · simpa [requestGo] using hf
    · simpa [requestGo] using hr
    · show (if attempt < maxR - 1 then
          [delays.getD (min attempt (delays.length - 1)) 0] else []) ++
          (requestGo (fun _ => .connectFail) tm maxR (attempt + 1) n
            (br.record_failure (tm attempt))).sleeps = _
      rw [hs, List.range_succ_eq_map, List.filterMap_cons, List.filterMap_map]
      have harg : ((fun j =>
          if attempt + j < maxR - 1 then
            some (delays.getD (min (attempt + j) (delays.length - 1)) 0)
          else none) ∘ (· + 1)) = (fun j =>
          if attempt + 1 + j < maxR - 1 then
            some (delays.getD (min (attempt + 1 + j) (delays.length - 1)) 0)
          else none) := by
        funext j
        have : attempt + (j + 1) = attempt + 1 + j := by omega
        simp [Function.comp, this]
      rw [harg]
      by_cases hlt : attempt < maxR - 1
      · simp [hlt]
      · simp [hlt]

/-- C2: against a backend whose every connection attempt fails with a
connect-class error, `request` with `max_retries = n ≥ 1` (and a breaker
that admits the call) performs exactly `n` attempts, records `n` breaker
failures, sleeps the non-decreasing `0.5, 1.0, 2.0, 2.0, ...` schedule
between consecutive attempts, and re-raises the last connect-class error. -/
theorem C2_retry_bound (tm : Nat → ℚ) (t0 : ℚ) (br : CircuitBreaker) (n : Nat)
    (hallow : (br.allow_request t0).1 = true) (hn : 1 ≤ n) :
    (request (fun _ => .connectFail) tm t0 br n).attempts = n ∧
    (request (fun _ => .connectFail) tm t0 br n).failures = n ∧
    (request (fun _ => .connectFail) tm t0 br n).sleeps
        = (List.range (n - 1)).map claimedDelay ∧
    List.Chain' (· ≤ ·) (request (fun _ => .connectFail) tm t0 br n).sleeps ∧
    (request (fun _ => .connectFail) tm t0 br n).result = .err .connectError := by
  obtain ⟨ha, hf, hr, hs⟩ :=
    requestGo_allFail tm n n 0 (br.allow_request t0).2
  have hreq : request (fun _ => .connectFail) tm t0 br n
      = requestGo (fun _ => .connectFail) tm n 0 n (br.allow_request t0).2 := by
    rw [request, if_pos hallow]
  have hsleeps : (request (fun _ => .connectFail) tm t0 br n).sleeps
      = (List.range (n - 1)).map claimedDelay := by
    rw [hreq, hs]
    have hsplit : List.range n = List.range (n - 1) ++ [n - 1] := by
      obtain ⟨m, rfl⟩ : ∃ m, n = m + 1 := ⟨n - 1, by omega⟩
      simpa using List.range_succ m
    rw [hsplit, List.filterMap_append]
    have h1 : (List.range (n - 1)).filterMap (fun j =>
        if 0 + j < n - 1 then
          some (delays.getD (min (0 + j) (delays.length - 1)) 0)
        else none) = (List.range (n - 1)).map claimedDelay := by
      rw [← List.filterMap_eq_map claimedDelay]
      refine List.filterMap_congr ?_
      intro j hj
      rw [List.mem_range] at hj
      rw [if_pos (by omega), Nat.zero_add, delays_getD_eq_claimedDelay]
      rfl
    have h2 : List.filterMap (fun j =>
        if 0 + j < n - 1 then
          some (delays.getD (min (0 + j) (delays.length - 1)) 0)
        else none) [n - 1] = [] := by
      simp
    rw [h1, h2, List.append_nil]
  refine ⟨by rw [hreq]; exact ha, by rw [hreq]; exact hf, hsleeps, ?_, ?_⟩
  · rw [hsleeps, List.chain'_map]
    cases hm : n - 1 with
    | zero => exact List.chain'_nil
    | succ m =>
      rw [List.chain'_range_succ]
      intro i _
      match i with
      | 0 => norm_num [claimedDelay]
      | 1 => norm_num [claimedDelay]
      | (i + 2) =>
        have h1 : ¬(i + 2 = 0) := by omega
        have h2 : ¬(i + 2 = 1) := by omega
        have h3 : ¬(i + 2 + 1 = 0) := by omega
        have h4 : ¬(i + 2 + 1 = 1) := by omega
        norm_num [claimedDelay, h1, h2, h3, h4]
  · rw [hreq, hr, if_neg (by omega)]

/-- Witness for C2 at a fresh breaker, `n = 4`. -/
theorem C2_retry_bound_witness :
    ((⟨5, 30, 0, 0, .closed⟩ : CircuitBreaker).allow_request 0).1 = true ∧ 1 ≤ 4 ∧
    ((request (fun _ => .connectFail) (fun i => (i : ℚ)) 0
        ⟨5, 30, 0, 0, .closed⟩ 4).attempts = 4 ∧
      (request (fun _ => .connectFail) (fun i => (i : ℚ)) 0
        ⟨5, 30, 0, 0, .closed⟩ 4).failures = 4 ∧
      (request (fun _ => .connectFail) (fun i => (i : ℚ)) 0
        ⟨5, 30, 0, 0, .closed⟩ 4).sleeps = (List.range (4 - 1)).map claimedDelay ∧
      List.Chain' (· ≤ ·) (request (fun _ => .connectFail) (fun i => (i : ℚ)) 0
        ⟨5, 30, 0, 0, .closed⟩ 4).sleeps ∧
      (request (fun _ => .connectFail) (fun i => (i : ℚ)) 0
        ⟨5, 30, 0, 0, .closed⟩ 4).result = .err .connectError) :=
  ⟨rfl, by omega,
    C2_retry_bound (fun i => (i : ℚ)) 0 ⟨5, 30, 0, 0, .closed⟩ 4 rfl (by omega)⟩

/-- C3: when the first attempt establishes a connection and the backend
returns an HTTP response of any status (including 4xx/5xx), exactly one
attempt is made, the breaker records success, the response is returned
immediately, and nothing is recorded as a breaker failure. -/
theorem C3_no_retry_on_http_status (oracle : Nat → AttemptOutcome)
    (tm : Nat → ℚ) (t0 : ℚ) (br : CircuitBreaker) (n status : Nat)
    (hallow : (br.allow_request t0).1 = true) (hn : 1 ≤ n)
    (hfirst : oracle 0 = .response status) :
    (request oracle tm t0 br n).result = .ok status ∧
    (request oracle tm t0 br n).attempts = 1 ∧
    (request oracle tm t0 br n).failures = 0 ∧
    (request oracle tm t0 br n).breaker
        = (br.allow_request t0).2.record_success ∧
    (request oracle tm t0 br n).sleeps = [] := by
  obtain ⟨m, rfl⟩ : ∃ m, n = m + 1 := ⟨n - 1, by omega⟩
  have hreq : request oracle tm t0 br (m + 1)
      = requestGo oracle tm (m + 1) 0 (m + 1) (br.allow_request t0).2 := by
    rw [request, if_pos hallow]
  rw [hreq]
  simp [requestGo, hfirst]

/-- Witness for C3 with a backend that answers HTTP 500 immediately. -/
theorem C3_no_retry_on_http_status_witness :
    ((⟨5, 30, 0, 0, .closed⟩ : CircuitBreaker).allow_request 0).1 = true ∧
    1 ≤ 3 ∧ (fun _ => AttemptOutcome.response 500) 0 = .response 500 ∧
    ((request (fun _ => .response 500) (fun i => (i : ℚ)) 0
        ⟨5, 30, 0, 0, .closed⟩ 3).result = .ok 500 ∧
      (request (fun _ => .response 500) (fun i => (i : ℚ)) 0
        ⟨5, 30, 0, 0, .closed⟩ 3).attempts = 1 ∧
      (request (fun _ => .response 500) (fun i => (i : ℚ)) 0
        ⟨5, 30, 0, 0, .closed⟩ 3).failures = 0 ∧
      (request (fun _ => .response 500) (fun i => (i : ℚ)) 0
        ⟨5, 30, 0, 0, .closed⟩ 3).breaker
          = ((⟨5, 30, 0, 0, .closed⟩ : CircuitBreaker).allow_request 0).2.record_success ∧
      (request (fun _ => .response 500) (fun i => (i : ℚ)) 0
        ⟨5, 30, 0, 0, .closed⟩ 3).sleeps = []) :=
  ⟨rfl, by omega, rfl,
    C3_no_retry_on_http_status (fun _ => .response 500) (fun i => (i : ℚ)) 0
      ⟨5, 30, 0, 0, .closed⟩ 3 500 rfl (by omega) rfl⟩

/-- C4 counterexample: the breaker is NOT consulted before each retry
attempt. With `threshold = 1` the first connect failure opens the breaker
(which then disallows requests, as `allow_request` at the second attempt's
time shows), yet the call performs all 3 attempts. -/
theorem C4_counterexample :
    ((⟨1, 1000, 0, 0, .closed⟩ : CircuitBreaker).record_failure 1).state
        = .opened ∧
    (((⟨1, 1000, 0, 0, .closed⟩ : CircuitBreaker).record_failure 1).allow_request 2).1
        = false ∧
    (request (fun _ => .connectFail) (fun i => (i : ℚ) + 1) 0
        ⟨1, 1000, 0, 0, .closed⟩ 3).attempts = 3 := by
  refine ⟨rfl, ?_, ?_⟩
  · have : ¬ ((1000 : ℚ) < 2 - 1) := by norm_num
    simp [CircuitBreaker.record_failure, CircuitBreaker.allow_request, this]
  · exact (requestGo_allFail (fun i => (i : ℚ) + 1) 3 3 0 _).1

/-- C4 as amended: the breaker is consulted once per call, before the first
attempt only; when it disallows the call, `request` fails immediately with a
connection-refused-class error, performing no attempt, no sleep and no
breaker bookkeeping. -/
theorem C4_breaker_gate (oracle : Nat → AttemptOutcome) (tm : Nat → ℚ)
    (t0 : ℚ) (br : CircuitBreaker) (n : Nat)
    (hdeny : (br.allow_request t0).1 = false) :
    (request oracle tm t0 br n).result = .err .breakerOpen ∧
    (request oracle tm t0 br n).attempts = 0 ∧
    (request oracle tm t0 br n).failures = 0 ∧
    (request oracle tm t0 br n).sleeps = [] ∧
    (request oracle tm t0 br n).breaker = (br.allow_request t0).2 := by
  rw [request]
  simp [hdeny]

/-- Witness for C4 at a freshly opened breaker still inside its cooldown. -/
theorem C4_breaker_gate_witness :
    ((⟨5, 30, 5, 0, .opened⟩ : CircuitBreaker).allow_request 1).1 = false ∧
    ((request (fun _ => .response 200) (fun i => (i : ℚ)) 1
        ⟨5, 30, 5, 0, .opened⟩ 3).result = .err .breakerOpen ∧
      (request (fun _ => .response 200) (fun i => (i : ℚ)) 1
        ⟨5, 30, 5, 0, .opened⟩ 3).attempts = 0 ∧
      (request (fun _ => .response 200) (fun i => (i : ℚ)) 1
        ⟨5, 30, 5, 0, .opened⟩ 3).failures = 0 ∧
      (request (fun _ => .response 200) (fun i => (i : ℚ)) 1
        ⟨5, 30, 5, 0, .opened⟩ 3).sleeps = [] ∧
      (request (fun _ => .response 200) (fun i => (i : ℚ)) 1
        ⟨5, 30, 5, 0, .opened⟩ 3).breaker
          = ((⟨5, 30, 5, 0, .opened⟩ : CircuitBreaker).allow_request 1).2) := by
  have hdeny : ((⟨5, 30, 5, 0, .opened⟩ : CircuitBreaker).allow_request 1).1 = false := by
    have : ¬ ((30 : ℚ) < 1 - 0) := by norm_num
    simp [CircuitBreaker.allow_request, this]
  exact ⟨hdeny,
    C4_breaker_gate (fun _ => .response 200) (fun i => (i : ℚ)) 1
      ⟨5, 30, 5, 0, .opened⟩ 3 hdeny⟩

/-! ## C9/C10: model profile store -/

/-- Characterization of the `patch_profile` merge loop: per key, the last
update wins (`None` deleting, any other value setting), and keys without an
update keep their current value. -/
theorem patch_foldl_get (updates : PyDict) :
    ∀ (m : PyDict) (k : String),
      alistGet (updates.foldl patchStep m) k =
        (match updates.reverse.find? (fun e => e.1 = k) with
         | some e => if e.2.isNull then none else some e.2
         | none => alistGet m k) := by
  induction updates with
  | nil => intro m k; rfl
  | cons u rest ih =>
    intro m k
    rw [List.foldl_cons, ih (patchStep m u) k, List.reverse_cons, List.find?_append]
    cases hfind : rest.reverse.find? (fun e => decide (e.1 = k)) with
    | some e => simp [hfind, Option.or]
    | none =>
      simp only [hfind]
      by_cases hu : u.1 = k
      · rw [List.find?_cons_of_pos _ (by simpa using hu)]
        show alistGet (patchStep m u) k
            = if u.2.isNull = true then none else some u.2
        by_cases hnull : u.2.isNull
        · rw [if_pos hnull, patchStep, if_pos hnull, hu, alistGet_pop_self]
        · rw [if_neg hnull, patchStep, if_neg hnull, hu, alistGet_set_self]
      · rw [List.find?_cons_of_neg _ (by simpa using hu), List.find?_nil]
        show alistGet (patchStep m u) k = alistGet m k
        by_cases hnull : u.2.isNull
        · rw [patchStep, if_pos hnull]
          exact alistGet_pop_ne _ (fun h => hu h.symm)
        · rw [patchStep, if_neg hnull]
          exact alistGet_set_ne _ (fun h => hu h.symm) _

/-- `patch_profile` returns the merge of the updates into the current
values. -/
theorem patch_profile_snd (s : ProfileStore) (model_id : String)
    (updates : PyDict) :
    (patch_profile s model_id updates).2
      = updates.foldl patchStep (get_profile s model_id) := by
  simp only [patch_profile]
  by_cases h : (updates.foldl patchStep (get_profile s model_id)).isEmpty
  · rw [if_pos h]
  · rw [if_neg h]

/-- The first component of `patch_profile` when the merge is empty. -/
theorem patch_profile_fst_empty (s : ProfileStore) (model_id : String)
    (updates : PyDict)
    (h : (updates.foldl patchStep (get_profile s model_id)).isEmpty = true) :
    (patch_profile s model_id updates).1 = alistPop s model_id := by
  simp only [patch_profile]
  rw [if_pos h]

/-- The first component of `patch_profile` when the merge is non-empty. -/
theorem patch_profile_fst_nonempty (s : ProfileStore) (model_id : String)
    (updates : PyDict)
    (h : ¬(updates.foldl patchStep (get_profile s model_id)).isEmpty = true) :
    (patch_profile s model_id updates).1
      = alistSet s model_id (updates.foldl patchStep (get_profile s model_id)) := by
  simp only [patch_profile]
  rw [if_neg h]

/-- Reading a model's profile after a patch yields exactly the merged
values (the empty merge and a removed record are both read back as `{}`). -/
theorem patch_profile_roundtrip (s : ProfileStore) (model_id : String)
    (updates : PyDict) :
    get_profile (patch_profile s model_id updates).1 model_id
      = (patch_profile s model_id updates).2 := by
  rw [patch_profile_snd]
  by_cases h : (updates.foldl patchStep (get_profile s model_id)).isEmpty
  · rw [patch_profile_fst_empty s model_id updates h]
    show (alistGet (alistPop s model_id) model_id).getD [] = _
    rw [alistGet_pop_self]
    exact (List.isEmpty_iff.mp h).symm
  · rw [patch_profile_fst_nonempty s model_id updates h]
    show (alistGet (alistSet s model_id _) model_id).getD [] = _
    rw [alistGet_set_self]
    rfl

/-- C9: `patch_profile` merges updates into the stored values — per key the
last update wins, a `None` update deletes the key, and untouched keys keep
their current value; the model's record exists after the patch iff the
merged value set is non-empty (an empty merge removes the record entirely),
and the stored profile read back equals the merge; `set_profile` with only
`None` values likewise leaves no record, so an empty profile is never
persisted. -/
theorem C9_patch_profile (s : ProfileStore) (model_id : String)
    (updates : PyDict) (k : String) (vs : PyDict)
    (hvs : ∀ e ∈ vs, e.2.isNull = true) :
    alistGet (patch_profile s model_id updates).2 k
        = (match updates.reverse.find? (fun e => e.1 = k) with
           | some e => if e.2.isNull then none else some e.2
           | none => alistGet (get_profile s model_id) k) ∧
    (alistMem (patch_profile s model_id updates).1 model_id = true ↔
        (patch_profile s model_id updates).2 ≠ []) ∧
    get_profile (patch_profile s model_id updates).1 model_id
        = (patch_profile s model_id updates).2 ∧
    alistMem (set_profile s model_id vs).1 model_id = false := by
  refine ⟨?_, ?_, patch_profile_roundtrip s model_id updates, ?_⟩
  · rw [patch_profile_snd, patch_foldl_get]
  · rw [patch_profile_snd]
    by_cases h : (updates.foldl patchStep (get_profile s model_id)).isEmpty
    · rw [patch_profile_fst_empty s model_id updates h, alistMem_pop_self]
      simp [List.isEmpty_iff.mp h]
    · rw [patch_profile_fst_nonempty s model_id updates h, alistMem_set_self]
      simp only [true_iff]
      exact fun hnil => h (by simp [hnil])
  · have hfilter : vs.filter (fun e => !e.2.isNull) = [] := by
      rw [List.filter_eq_nil_iff]
      intro e he
      simp [hvs e he]
    rw [set_profile]
    simp only [hfilter, List.isEmpty_nil, if_pos rfl]
    exact alistMem_pop_self s model_id

/-- Witness for C9: patch `{"a": None, "b": 1}` onto stored `{"a": "x"}`,
observed at key `"b"`; `set_profile` with `{"z": None}`. -/
theorem C9_patch_profile_witness :
    (∀ e ∈ ([("z", JVal.null)] : PyDict), e.2.isNull = true) ∧
    (alistGet (patch_profile [("m", [("a", JVal.str "x")])] "m"
          [("a", JVal.null), ("b", JVal.num 1)]).2 "b"
        = (match ([("a", JVal.null), ("b", JVal.num 1)] : PyDict).reverse.find?
              (fun e => e.1 = "b") with
           | some e => if e.2.isNull then none else some e.2
           | none => alistGet (get_profile [("m", [("a", JVal.str "x")])] "m") "b") ∧
      (alistMem (patch_profile [("m", [("a", JVal.str "x")])] "m"
            [("a", JVal.null), ("b", JVal.num 1)]).1 "m" = true ↔
          (patch_profile [("m", [("a", JVal.str "x")])] "m"
            [("a", JVal.null), ("b", JVal.num 1)]).2 ≠ []) ∧
      get_profile (patch_profile [("m", [("a", JVal.str "x")])] "m"
            [("a", JVal.null), ("b", JVal.num 1)]).1 "m"
          = (patch_profile [("m", [("a", JVal.str "x")])] "m"
            [("a", JVal.null), ("b", JVal.num 1)]).2 ∧
      alistMem (set_profile [("m", [("a", JVal.str "x")])] "m"
          [("z", JVal.null)]).1 "m" = false) :=
  ⟨by decide, C9_patch_profile [("m", [("a", JVal.str "x")])] "m"
      [("a", JVal.null), ("b", JVal.num 1)] "b" [("z", JVal.null)] (by decide)⟩

/-- C10: a string-typed profile field (`system_prompt`) whose supplied value
is empty or whitespace-only is normalized to `None` by the validation layer,
and patching the store with that `None` leaves the stored profile without
the key (rather than persisting an empty string). -/
theorem C10_empty_string_normalizes_to_none (s : String) (store : ProfileStore)
    (model_id : String) (hws : s.toList.all pyWhitespace = true) :
    normalizeStringField (.str s) = .ok .null ∧
    alistGet (get_profile
        (patch_profile store model_id [("system_prompt", JVal.null)]).1 model_id)
      "system_prompt" = none := by
  constructor
  · have hd : s.data.dropWhile pyWhitespace = [] :=
      List.dropWhile_eq_nil_iff.mpr (fun x hx => by
        simpa using List.all_eq_true.mp hws x hx)
    have hstrip : pyStrip s = "" := by
      show String.mk ((s.data.dropWhile pyWhitespace).reverse.dropWhile
        pyWhitespace).reverse = ""
      rw [hd]
      rfl
    simp [normalizeStringField, hstrip]
  · rw [patch_profile_roundtrip, patch_profile_snd]
    show alistGet (alistPop (get_profile store model_id) "system_prompt")
      "system_prompt" = none
    exact alistGet_pop_self _ _

/-- Witness for C10 at the whitespace-only string `" \t\n "` and a store
holding a `system_prompt` for the model. -/
theorem C10_empty_string_normalizes_to_none_witness :
    (" \t\n ".toList.all pyWhitespace = true) ∧
    (normalizeStringField (.str " \t\n ") = .ok .null ∧
      alistGet (get_profile
          (patch_profile [("m", [("system_prompt", JVal.str "x")])] "m"
            [("system_prompt", JVal.null)]).1 "m")
        "system_prompt" = none) :=
  ⟨by decide,
    C10_empty_string_normalizes_to_none " \t\n "
      [("m", [("system_prompt", JVal.str "x")])] "m" (by decide)⟩

/-! ## C8: terminal feed ring buffer and backlog -/

theorem pushEvent_length (cap : Nat) (buf : List TEvent) (e : TEvent) :
    (pushEvent cap buf e).length = min (buf.length + 1) cap := by
  simp [pushEvent]
  omega

/-- A bounded `deque` fed by `append`: the buffer is always the suffix of
everything pushed so far that fits the capacity. -/
theorem pushAll_eq_drop (cap : Nat) :
    ∀ (es buf : List TEvent), buf.length ≤ cap →
      pushAll cap buf es = (buf ++ es).drop ((buf ++ es).length - cap) := by
  intro es
  induction es with
  | nil =>
    intro buf h
    simp [pushAll, Nat.sub_eq_zero_of_le h]
  | cons e es' ih =>
    intro buf h
    have hlen : (pushEvent cap buf e).length ≤ cap := by
      rw [pushEvent_length]; omega
    have hih := ih (pushEvent cap buf e) hlen
    have hstep : pushAll cap buf (e :: es')
        = pushAll cap (pushEvent cap buf e) es' := rfl
    have hle : buf.length + 1 - cap ≤ (buf ++ [e]).length := by
      simp only [List.length_append, List.length_singleton]
      omega
    have h1 : pushEvent cap buf e ++ es'
        = ((buf ++ [e]) ++ es').drop (buf.length + 1 - cap) := by
      rw [List.drop_append_of_le_length hle]
      simp only [pushEvent]
      congr 2
      simp
    have hX : (buf ++ [e]) ++ es' = buf ++ e :: es' := by simp
    rw [hstep, hih, h1, hX, List.drop_drop]
    congr 1
    simp only [List.length_drop, List.length_append, List.length_cons]
    omega

/-- The backlog collection loop collects the first `need` matches of the
newest-first walk. -/
theorem backlogGo_eq_filter_take (minRank : Nat) (allowed : List String) :
    ∀ (l : List TEvent) (need : Nat), 1 ≤ need →
      backlogGo minRank allowed need l
        = (l.filter (backlogKeep minRank allowed)).take need := by
  intro l
  induction l with
  | nil => intro need _; simp [backlogGo]
  | cons e rest ih =>
    intro need hneed
    by_cases hk : backlogKeep minRank allowed e
    · rw [List.filter_cons_of_pos hk]
      by_cases h1 : need ≤ 1
      · have hone : need = 1 := by omega
        subst hone
        simp [backlogGo, hk]
      · obtain ⟨m, rfl⟩ : ∃ m, need = m + 1 := ⟨need - 1, by omega⟩
        have hm : 1 ≤ m := by omega
        simp only [backlogGo, hk, if_true, if_neg h1, List.take_succ_cons,
          Nat.add_sub_cancel]
        rw [ih m hm]
    · rw [List.filter_cons_of_neg hk]
      simpa [backlogGo, hk] using ih need hneed

/-- C8 counterexample: `backlog` clamps the limit below by 1
(`max(1, min(limit, len))`), so with `limit = 0` it still returns one
matching event instead of stopping after zero. -/
theorem C8_counterexample :
    backlog [⟨"gateway", "INFO", "m1"⟩] 0 "INFO" []
      = [⟨"gateway", "INFO", "m1"⟩] ∧
    ([⟨"gateway", "INFO", "m1"⟩] : List TEvent) ≠ [] := by
  exact ⟨by decide, by simp⟩

/-- C8 as amended (restricted to `limit ≥ 1`, which the code otherwise
clamps up to 1): a buffer of capacity `N` fed `N + K` events retains exactly
the most recent `N`; `backlog` walks the buffer newest-first, keeps events
whose level rank reaches the minimum and whose source is in the allow-set
when one is given, stops once `limit` matches are collected, and returns
them oldest-first. -/
theorem C8_ring_buffer_and_backlog (cap K : Nat) (es : List TEvent)
    (hlen : es.length = cap + K) (buf : List TEvent) (limit : Nat)
    (hlim : 1 ≤ limit) (min_level : String) (allowed : List String) :
    pushAll cap [] es = es.drop K ∧
    backlog buf limit min_level allowed
      = ((buf.reverse.filter
            (backlogKeep (levelRankOf (pyUpper min_level) 20) allowed)).take
          limit).reverse := by
  constructor
  · rw [pushAll_eq_drop cap es [] (by simp), List.nil_append]
    congr 1
    omega
  · simp only [backlog]
    rw [backlogGo_eq_filter_take (levelRankOf (pyUpper min_level) 20) allowed
      buf.reverse (max 1 (min limit buf.length)) (le_max_left 1 _)]
    congr 1
    rw [List.take_eq_take]
    have hflen : (buf.reverse.filter
        (backlogKeep (levelRankOf (pyUpper min_level) 20) allowed)).length
        ≤ buf.length := by
      calc _ ≤ buf.reverse.length := List.length_filter_le _ _
        _ = buf.length := List.length_reverse buf
    omega

/-- Witness for C8: capacity 2, three events, backlog with limit 1. -/
theorem C8_ring_buffer_and_backlog_witness :
    ([(⟨"gateway", "INFO", "m1"⟩ : TEvent), ⟨"gateway", "ERROR", "m2"⟩,
        ⟨"other", "DEBUG", "m3"⟩].length = 2 + 1) ∧ 1 ≤ 1 ∧
    (pushAll 2 [] [⟨"gateway", "INFO", "m1"⟩, ⟨"gateway", "ERROR", "m2"⟩,
        ⟨"other", "DEBUG", "m3"⟩] = [(⟨"gateway", "INFO", "m1"⟩ : TEvent),
        ⟨"gateway", "ERROR", "m2"⟩, ⟨"other", "DEBUG", "m3"⟩].drop 1 ∧
      backlog [⟨"gateway", "INFO", "m1"⟩, ⟨"gateway", "ERROR", "m2"⟩,
          ⟨"other", "DEBUG", "m3"⟩] 1 "INFO" []
        = (([(⟨"gateway", "INFO", "m1"⟩ : TEvent), ⟨"gateway", "ERROR", "m2"⟩,
            ⟨"other", "DEBUG", "m3"⟩].reverse.filter
              (backlogKeep (levelRankOf (pyUpper "INFO") 20) [])).take 1).reverse) :=
  ⟨rfl, by omega,
    C8_ring_buffer_and_backlog 2 1
      [⟨"gateway", "INFO", "m1"⟩, ⟨"gateway", "ERROR", "m2"⟩,
        ⟨"other", "DEBUG", "m3"⟩] rfl
      [⟨"gateway", "INFO", "m1"⟩, ⟨"gateway", "ERROR", "m2"⟩,
        ⟨"other", "DEBUG", "m3"⟩] 1 (by omega) "INFO" []⟩

/-! ## C5/C6: profile-default injection -/

theorem alistMem_set_ne {α : Type} (o : List (String × α)) {k k' : String}
    (h : k' ≠ k) (v : α) : alistMem (alistSet o k v) k' = alistMem o k' := by
  induction o with
  | nil =>
    have hne : ¬(k = k') := fun hk => h hk.symm
    simp [alistSet, alistMem, hne]
  | cons e rest ih =>
    rw [alistSet_cons]
    by_cases he : e.1 = k
    · rw [if_pos he, alistMem_cons, alistMem_cons, he]
    · rw [if_neg he, alistMem_cons, alistMem_cons, ih]

/-- `fillKey` characterizations (the Python
`if key in profile and key not in payload`). -/
theorem fillKey_none (profile : PyDict) (acc : PyDict × List String)
    (k : String) (hv : alistGet profile k = none) :
    fillKey profile acc k = acc := by
  rw [fillKey, hv]

theorem fillKey_mem (profile : PyDict) (acc : PyDict × List String)
    (k : String) (v : JVal) (hv : alistGet profile k = some v)
    (hmem : alistMem acc.1 k = true) : fillKey profile acc k = acc := by
  rw [fillKey, hv]
  exact if_pos hmem

theorem fillKey_fill (profile : PyDict) (acc : PyDict × List String)
    (k : String) (v : JVal) (hv : alistGet profile k = some v)
    (hmem : alistMem acc.1 k = false) :
    fillKey profile acc k = (alistSet acc.1 k v, acc.2 ++ [k]) := by
  rw [fillKey, hv]
  exact if_neg (by simp [hmem])

theorem alistMem_eq_isSome {α : Type} (o : List (String × α)) (k : String) :
    alistMem o k = (alistGet o k).isSome := by
  induction o with
  | nil => rfl
  | cons e rest ih =>
    rw [alistMem_cons, alistGet_cons]
    by_cases he : e.1 = k
    · simp [he]
    · simp [he, ih]

/-- The fill loop leaves keys it does not visit untouched. -/
theorem fill_foldl_get_not_mem (profile : PyDict) :
    ∀ (keys : List String) (acc : PyDict × List String) (k : String),
      k ∉ keys →
      alistGet (keys.foldl (fillKey profile) acc).1 k = alistGet acc.1 k := by
  intro keys
  induction keys with
  | nil => intro acc k _; rfl
  | cons k' rest ih =>
    intro acc k hk
    have hk1 : k ≠ k' := fun h => hk (by rw [h]; exact List.mem_cons_self k' rest)
    have hrest : k ∉ rest := fun h => hk (List.mem_cons_of_mem _ h)
    rw [List.foldl_cons, ih (fillKey profile acc k') k hrest]
    cases hv : alistGet profile k' with
    | none => rw [fillKey_none profile acc k' hv]
    | some v =>
      cases hmem : alistMem acc.1 k' with
      | true => rw [fillKey_mem profile acc k' v hv hmem]
      | false =>
        rw [fillKey_fill profile acc k' v hv hmem]
        exact alistGet_set_ne _ hk1 _

/-- The fill loop is fill-only: for a visited key, a caller-supplied value
survives untouched, and a missing one is copied from the profile. -/
theorem fill_foldl_get_mem (profile : PyDict) :
    ∀ (keys : List String), keys.Nodup →
      ∀ (k : String), k ∈ keys → ∀ (acc : PyDict × List String),
      (alistMem acc.1 k = true →
        alistGet (keys.foldl (fillKey profile) acc).1 k = alistGet acc.1 k) ∧
      (alistMem acc.1 k = false → alistMem profile k = true →
        alistGet (keys.foldl (fillKey profile) acc).1 k = alistGet profile k) := by
  intro keys
  induction keys with
  | nil => intro _ k hk; exact absurd hk (List.not_mem_nil k)
  | cons k' rest ih =>
    intro hnd k hk acc
    rw [List.nodup_cons] at hnd
    rw [List.foldl_cons]
    rcases List.mem_cons.mp hk with rfl | hkrest
    · have hrest : k ∉ rest := hnd.1
      constructor
      · intro hmem
        rw [fill_foldl_get_not_mem profile rest _ k hrest]
        cases hv : alistGet profile k with
        | none => rw [fillKey_none profile acc k hv]
        | some v => rw [fillKey_mem profile acc k v hv hmem]
      · intro hmem hprof
        rw [fill_foldl_get_not_mem profile rest _ k hrest]
        rw [alistMem_eq_isSome] at hprof
        obtain ⟨v, hv⟩ := Option.isSome_iff_exists.mp hprof
        rw [fillKey_fill profile acc k v hv hmem]
        show alistGet (alistSet acc.1 k v) k = alistGet profile k
        rw [alistGet_set_self]
        exact hv.symm
    · have hne : k ≠ k' := fun h => hnd.1 (h ▸ hkrest)
      have hstep_get : alistGet (fillKey profile acc k').1 k = alistGet acc.1 k := by
        cases hv : alistGet profile k' with
        | none => rw [fillKey_none profile acc k' hv]
        | some v =>
          cases hmem : alistMem acc.1 k' with
          | true => rw [fillKey_mem profile acc k' v hv hmem]
          | false =>
            rw [fillKey_fill profile acc k' v hv hmem]
            exact alistGet_set_ne _ hne _
      have hstep_mem : alistMem (fillKey profile acc k').1 k = alistMem acc.1 k := by
        cases hv : alistGet profile k' with
        | none => rw [fillKey_none profile acc k' hv]
        | some v =>
          cases hmem : alistMem acc.1 k' with
          | true => rw [fillKey_mem profile acc k' v hv hmem]
          | false =>
            rw [fillKey_fill profile acc k' v hv hmem]
            exact alistMem_set_ne _ hne _
      obtain ⟨ih1, ih2⟩ := ih hnd.2 k hkrest (fillKey profile acc k')
      constructor
      · intro hmem
        rw [ih1 (by rw [hstep_mem]; exact hmem), hstep_get]
      · intro hmem hprof
        exact ih2 (by rw [hstep_mem]; exact hmem) hprof

/-- The `system_prompt` block is a no-op when its guard fails. -/
theorem spStage_eq_skip (profile : PyDict) (acc : PyDict × List String)
    (h : spValidOf profile = none) : spStage profile acc = acc := by
  rw [spValidOf] at h
  rw [spStage]
  cases hg : alistGet profile "system_prompt" with
  | none => rfl
  | some v =>
    rw [hg] at h
    cases v with
    | str s =>
      simp only [] at h ⊢
      by_cases hs : s = ""
      · rw [if_pos hs]
      · rw [if_neg hs] at h; exact absurd h (by simp)
    | null => rfl
    | bool b => rfl
    | num q => rfl
    | arr l => rfl
    | obj o => rfl

/-- The `system_prompt` block with a passing guard rewrites `messages`. -/
theorem spStage_fst_valid (profile : PyDict) (acc : PyDict × List String)
    (s : String) (h : spValidOf profile = some s) :
    (spStage profile acc).1
      = alistSet acc.1 "messages"
          (.arr (applySystemPromptMsgs (messagesOf acc.1) s)) := by
  rw [spValidOf] at h
  rw [spStage]
  cases hg : alistGet profile "system_prompt" with
  | none => rw [hg] at h; exact absurd h (by simp)
  | some v =>
    rw [hg] at h
    cases v with
    | str s' =>
      simp only [] at h ⊢
      by_cases hs : s' = ""
      · rw [if_pos hs] at h; exact absurd h (by simp)
      · rw [if_neg hs] at h
        obtain rfl : s' = s := by simpa using h
        rw [if_neg hs]
        rfl
    | null => exact absurd h (by simp)
    | bool b => exact absurd h (by simp)
    | num q => exact absurd h (by simp)
    | arr l => exact absurd h (by simp)
    | obj o => exact absurd h (by simp)

/-- The `reasoning_effort` block is a no-op when its guard fails. -/
theorem reStage_eq_skip (profile : PyDict) (acc : PyDict × List String)
    (h : reValidOf profile = none) : reStage profile acc = acc := by
  rw [reValidOf] at h
  rw [reStage]
  cases hg : alistGet profile "reasoning_effort" with
  | none => rfl
  | some v =>
    rw [hg] at h
    cases v with
    | str e =>
      simp only [] at h ⊢
      by_cases he : e ∈ REASONING_LEVELS
      · rw [if_pos he] at h; exact absurd h (by simp)
      · rw [if_neg he]
    | null => rfl
    | bool b => rfl
    | num q => rfl
    | arr l => rfl
    | obj o => rfl

/-- The `reasoning_effort` block with a passing guard rewrites `messages`. -/
theorem reStage_fst_valid (profile : PyDict) (acc : PyDict × List String)
    (e : String) (h : reValidOf profile = some e) :
    (reStage profile acc).1
      = alistSet acc.1 "messages"
          (.arr (applyReasoningMsgs (messagesOf acc.1) e)) := by
  rw [reValidOf] at h
  rw [reStage]
  cases hg : alistGet profile "reasoning_effort" with
  | none => rw [hg] at h; exact absurd h (by simp)
  | some v =>
    rw [hg] at h
    cases v with
    | str e' =>
      simp only [] at h ⊢
      by_cases he : e' ∈ REASONING_LEVELS
      · rw [if_pos he] at h
        obtain rfl : e' = e := by simpa using h
        rw [if_pos he]
        rfl
      · rw [if_neg he] at h; exact absurd h (by simp)
    | null => exact absurd h (by simp)
    | bool b => exact absurd h (by simp)
    | num q => exact absurd h (by simp)
    | arr l => exact absurd h (by simp)
    | obj o => exact absurd h (by simp)

/-- A passing `reasoning_effort` guard only passes for the three levels. -/
theorem reValidOf_mem {profile : PyDict} {e : String}
    (h : reValidOf profile = some e) : e ∈ REASONING_LEVELS := by
  rw [reValidOf] at h
  cases hg : alistGet profile "reasoning_effort" with
  | none => rw [hg] at h; exact absurd h (by simp)
  | some v =>
    rw [hg] at h
    cases v with
    | str e' =>
      simp only [] at h
      by_cases he : e' ∈ REASONING_LEVELS
      · rw [if_pos he] at h
        obtain rfl : e' = e := by simpa using h
        exact he
      · rw [if_neg he] at h; exact absurd h (by simp)
    | null => exact absurd h (by simp)
    | bool b => exact absurd h (by simp)
    | num q => exact absurd h (by simp)
    | arr l => exact absurd h (by simp)
    | obj o => exact absurd h (by simp)

theorem spStage_get_ne (profile : PyDict) (acc : PyDict × List String)
    (k : String) (hk : k ≠ "messages") :
    alistGet (spStage profile acc).1 k = alistGet acc.1 k := by
  cases hv : spValidOf profile with
  | none => rw [spStage_eq_skip profile acc hv]
  | some s =>
    rw [spStage_fst_valid profile acc s hv]
    exact alistGet_set_ne _ hk _

theorem reStage_get_ne (profile : PyDict) (acc : PyDict × List String)
    (k : String) (hk : k ≠ "messages") :
    alistGet (reStage profile acc).1 k = alistGet acc.1 k := by
  cases hv : reValidOf profile with
  | none => rw [reStage_eq_skip profile acc hv]
  | some e =>
    rw [reStage_fst_valid profile acc e hv]
    exact alistGet_set_ne _ hk _

theorem messagesOf_set (p : PyDict) (m : List JVal) :
    messagesOf (alistSet p "messages" (.arr m)) = m := by
  rw [messagesOf, alistGet_set_self]

theorem messagesOf_congr {p q : PyDict}
    (h : alistGet p "messages" = alistGet q "messages") :
    messagesOf p = messagesOf q := by
  rw [messagesOf, messagesOf, h]

/-- C5: for a payload and a stored profile, each generation key
(`temperature`, `top_p`, `top_k`, `min_p`, `repeat_penalty`, `max_tokens`)
is copied from the profile into the payload only when present in the profile
and absent from the payload; a key already present in the caller's payload
keeps its caller-supplied value. -/
theorem C5_profile_merge_fill_only (profile payload : PyDict) (k : String)
    (hk : k ∈ PROFILE_DEFAULT_APPLY_KEYS) :
    (alistMem payload k = true →
      alistGet (_apply_model_load_defaults_to_payload profile payload).1 k
        = alistGet payload k) ∧
    (alistMem payload k = false → alistMem profile k = true →
      alistGet (_apply_model_load_defaults_to_payload profile payload).1 k
        = alistGet profile k) := by
  have hkm : k ≠ "messages" := by
    intro h
    rw [h] at hk
    exact absurd hk (by decide)
  by_cases hemp : profile.isEmpty
  · constructor
    · intro _
      simp [_apply_model_load_defaults_to_payload, hemp]
    · intro _ hprof
      rw [List.isEmpty_iff.mp hemp] at hprof
      exact absurd hprof (by simp [alistMem])
  · have hrw : (_apply_model_load_defaults_to_payload profile payload).1
        = (reStage profile (spStage profile
            (PROFILE_DEFAULT_APPLY_KEYS.foldl (fillKey profile)
              (payload, [])))).1 := by
      rw [_apply_model_load_defaults_to_payload, if_neg hemp]
    obtain ⟨h1, h2⟩ := fill_foldl_get_mem profile PROFILE_DEFAULT_APPLY_KEYS
      (by decide) k hk (payload, [])
    constructor
    · intro hmem
      rw [hrw, reStage_get_ne _ _ _ hkm, spStage_get_ne _ _ _ hkm, h1 hmem]
    · intro hmem hprof
      rw [hrw, reStage_get_ne _ _ _ hkm, spStage_get_ne _ _ _ hkm, h2 hmem hprof]

/-- Witness for C5 at the spec's example: payload `{temperature: 0.2}`,
profile `{temperature: 0.9, top_p: 0.8}`, observed at `top_p` (absent from
the payload and copied) and at `temperature` (kept). -/
theorem C5_profile_merge_fill_only_witness :
    (("top_p" : String) ∈ PROFILE_DEFAULT_APPLY_KEYS) ∧
    (("temperature" : String) ∈ PROFILE_DEFAULT_APPLY_KEYS) ∧
    ((alistMem [("temperature", JVal.num (2/10))] "top_p" = true →
        alistGet (_apply_model_load_defaults_to_payload
            [("temperature", JVal.num (9/10)), ("top_p", JVal.num (8/10))]
            [("temperature", JVal.num (2/10))]).1 "top_p"
          = alistGet [("temperature", JVal.num (2/10))] "top_p") ∧
      (alistMem [("temperature", JVal.num (2/10))] "top_p" = false →
        alistMem [("temperature", JVal.num (9/10)), ("top_p", JVal.num (8/10))]
            "top_p" = true →
        alistGet (_apply_model_load_defaults_to_payload
            [("temperature", JVal.num (9/10)), ("top_p", JVal.num (8/10))]
            [("temperature", JVal.num (2/10))]).1 "top_p"
          = alistGet [("temperature", JVal.num (9/10)),
              ("top_p", JVal.num (8/10))] "top_p")) ∧
    ((alistMem [("temperature", JVal.num (2/10))] "temperature" = true →
        alistGet (_apply_model_load_defaults_to_payload
            [("temperature", JVal.num (9/10)), ("top_p", JVal.num (8/10))]
            [("temperature", JVal.num (2/10))]).1 "temperature"
          = alistGet [("temperature", JVal.num (2/10))] "temperature") ∧
      (alistMem [("temperature", JVal.num (2/10))] "temperature" = false →
        alistMem [("temperature", JVal.num (9/10)), ("top_p", JVal.num (8/10))]
            "temperature" = true →
        alistGet (_apply_model_load_defaults_to_payload
            [("temperature", JVal.num (9/10)), ("top_p", JVal.num (8/10))]
            [("temperature", JVal.num (2/10))]).1 "temperature"
          = alistGet [("temperature", JVal.num (9/10)),
              ("top_p", JVal.num (8/10))] "temperature")) :=
  ⟨by decide, by decide,
    C5_profile_merge_fill_only
      [("temperature", JVal.num (9/10)), ("top_p", JVal.num (8/10))]
      [("temperature", JVal.num (2/10))] "top_p" (by decide),
    C5_profile_merge_fill_only
      [("temperature", JVal.num (9/10)), ("top_p", JVal.num (8/10))]
      [("temperature", JVal.num (2/10))] "temperature" (by decide)⟩

/-! ### Message-list lemmas for the idempotence of profile injection -/

theorem isSystemMessage_sysMessage (c : String) :
    isSystemMessage (sysMessage c) = true := rfl

theorem applySystemPromptMsgs_any (m : List JVal) (s : String) :
    (applySystemPromptMsgs m s).any isSystemMessage = true := by
  rw [applySystemPromptMsgs]
  by_cases h : m.any isSystemMessage
  · rw [if_pos h]; exact h
  · rw [if_neg h, List.any_cons, isSystemMessage_sysMessage, Bool.true_or]

theorem applySystemPromptMsgs_of_any (m : List JVal) (s : String)
    (h : m.any isSystemMessage = true) : applySystemPromptMsgs m s = m := by
  rw [applySystemPromptMsgs, if_pos h]

theorem any_eq_true_iff_filter_ne_nil (p : JVal → Bool) (l : List JVal) :
    l.any p = true ↔ l.filter p ≠ [] := by
  rw [List.any_eq_true]
  constructor
  · rintro ⟨x, hx, hpx⟩ hnil
    have hmem : x ∈ l.filter p := List.mem_filter.mpr ⟨hx, hpx⟩
    rw [hnil] at hmem
    exact absurd hmem (List.not_mem_nil x)
  · intro hne
    rcases hl : l.filter p with _ | ⟨x, xs⟩
    · exact absurd hl hne
    · have hx : x ∈ l.filter p := by rw [hl]; exact List.mem_cons_self x xs
      exact ⟨x, (List.mem_filter.mp hx).1, (List.mem_filter.mp hx).2⟩

theorem filter_modifyFirstSystem (f : JVal → JVal)
    (hf : ∀ x, isSystemMessage (f x) = isSystemMessage x) :
    ∀ l : List JVal,
      (modifyFirstSystem f l).filter isSystemMessage
        = (match l.filter isSystemMessage with
           | [] => ([] : List JVal)
           | x :: xs => f x :: xs) := by
  intro l
  induction l with
  | nil => rfl
  | cons m rest ih =>
    by_cases hm : isSystemMessage m
    · simp only [modifyFirstSystem, if_pos hm]
      rw [List.filter_cons_of_pos (by rw [hf]; exact hm),
        List.filter_cons_of_pos hm]
    · simp only [modifyFirstSystem, if_neg hm]
      rw [List.filter_cons_of_neg hm, List.filter_cons_of_neg hm, ih]

theorem isSystemMessage_setContent (c : String) (m : JVal) :
    isSystemMessage (setContent c m) = isSystemMessage m := by
  cases m with
  | obj o =>
    simp only [setContent, isSystemMessage]
    rw [alistGet_set_ne o (by decide : ("role" : String) ≠ "content") (.str c)]
  | null => rfl
  | bool b => rfl
  | num q => rfl
  | str s => rfl
  | arr l => rfl

theorem contentOf_setContent (c : String) (o : PyDict) :
    contentOf (setContent c (.obj o)) = some (.str c) := by
  simp only [setContent, contentOf]
  exact alistGet_set_self o "content" (.str c)

theorem isSystemMessage_is_obj {m : JVal} (h : isSystemMessage m = true) :
    ∃ o, m = JVal.obj o := by
  cases m with
  | obj o => exact ⟨o, rfl⟩
  | null => simp [isSystemMessage] at h
  | bool b => simp [isSystemMessage] at h
  | num q => simp [isSystemMessage] at h
  | str s => simp [isSystemMessage] at h
  | arr l => simp [isSystemMessage] at h

theorem splitCharsOn_no_sep (sep : Char) :
    ∀ (l : List Char), (∀ c ∈ l, c ≠ sep) → splitCharsOn sep l = [l] := by
  intro l
  induction l with
  | nil => intro _; rfl
  | cons c l' ih =>
    intro h
    have hc : c ≠ sep := h c (List.mem_cons_self c l')
    simp only [splitCharsOn,
      ih (fun x hx => h x (List.mem_cons_of_mem _ hx)), if_neg hc]
    rfl

theorem splitCharsOn_append_sep (sep : Char) (l1 l2 : List Char)
    (h : ∀ c ∈ l1, c ≠ sep) :
    splitCharsOn sep (l1 ++ sep :: l2) = l1 :: splitCharsOn sep l2 := by
  induction l1 with
  | nil => simp [splitCharsOn]
  | cons c l1' ih =>
    have hc : c ≠ sep := h c (List.mem_cons_self c l1')
    rw [List.cons_append]
    simp only [splitCharsOn,
      ih (fun x hx => h x (List.mem_cons_of_mem _ hx)), if_neg hc]
    rfl

theorem reasoningLineMatch_reasoning_line {eff : String}
    (heff : eff ∈ REASONING_LEVELS) :
    reasoningLineMatch ("Reasoning: " ++ eff).data = true := by
  have h3 : eff = "low" ∨ eff = "medium" ∨ eff = "high" := by
    simpa [REASONING_LEVELS] using heff
  rcases h3 with rfl | rfl | rfl <;> decide

theorem reasoning_line_no_newline {eff : String}
    (heff : eff ∈ REASONING_LEVELS) :
    ∀ ch ∈ ("Reasoning: " ++ eff).data, ch ≠ '\n' := by
  have h3 : eff = "low" ∨ eff = "medium" ∨ eff = "high" := by
    simpa [REASONING_LEVELS] using heff
  rcases h3 with rfl | rfl | rfl <;> decide

theorem reasoningSearch_reasoning_line {eff : String}
    (heff : eff ∈ REASONING_LEVELS) :
    reasoningSearch ("Reasoning: " ++ eff) = true := by
  rw [reasoningSearch,
    splitCharsOn_no_sep '\n' _ (reasoning_line_no_newline heff),
    List.any_cons, reasoningLineMatch_reasoning_line heff, Bool.true_or]

theorem reasoningSearch_merge (line c : String)
    (hnl : ∀ ch ∈ line.data, ch ≠ '\n')
    (hm : reasoningLineMatch line.data = true) :
    reasoningSearch (line ++ "\n\n" ++ c) = true := by
  rw [reasoningSearch]
  have h2 : "\n\n".data = ['\n', '\n'] := rfl
  have hdata : (line ++ "\n\n" ++ c).data
      = line.data ++ '\n' :: ('\n' :: c.data) := by
    rw [String.data_append, String.data_append, h2, List.append_assoc]
    rfl
  rw [hdata, splitCharsOn_append_sep '\n' line.data _ hnl, List.any_cons, hm,
    Bool.true_or]

theorem applyReasoningMsgs_no_system (m : List JVal) (eff : String)
    (h : m.filter isSystemMessage = []) :
    applyReasoningMsgs m eff = sysMessage ("Reasoning: " ++ eff) :: m := by
  simp only [applyReasoningMsgs, h]

theorem applyReasoningMsgs_matched (m : List JVal) (eff : String) (fs : JVal)
    (rest : List JVal) (hfil : m.filter isSystemMessage = fs :: rest)
    (c : String) (hc : contentOf fs = some (.str c))
    (hs : reasoningSearch c = true) :
    applyReasoningMsgs m eff = m := by
  simp only [applyReasoningMsgs, hfil, hc, hs, if_true]

theorem applyReasoningMsgs_merge (m : List JVal) (eff : String) (fs : JVal)
    (rest : List JVal) (hfil : m.filter isSystemMessage = fs :: rest)
    (c : String) (hc : contentOf fs = some (.str c))
    (hs : reasoningSearch c = false) :
    applyReasoningMsgs m eff
      = modifyFirstSystem (setContent (if c = "" then "Reasoning: " ++ eff
          else "Reasoning: " ++ eff ++ "\n\n" ++ c)) m := by
  simp only [applyReasoningMsgs, hfil, hc, hs, if_false, Bool.false_eq_true]

theorem contentOf_cases (fs : JVal) :
    (∃ c, contentOf fs = some (.str c)) ∨
      (∀ c, contentOf fs ≠ some (.str c)) := by
  rcases h : contentOf fs with _ | v
  · exact Or.inr (fun c hc => by simp at hc)
  · cases v with
    | str c => exact Or.inl ⟨c, rfl⟩
    | null => exact Or.inr (fun c hc => by simp at hc)
    | bool b => exact Or.inr (fun c hc => by simp at hc)
    | num q => exact Or.inr (fun c hc => by simp at hc)
    | arr l => exact Or.inr (fun c hc => by simp at hc)
    | obj o => exact Or.inr (fun c hc => by simp at hc)

theorem applyReasoningMsgs_nonstring (m : List JVal) (eff : String) (fs : JVal)
    (rest : List JVal) (hfil : m.filter isSystemMessage = fs :: rest)
    (hc : ∀ c : String, contentOf fs ≠ some (.str c)) :
    applyReasoningMsgs m eff = m := by
  rcases hco : contentOf fs with _ | v
  · simp only [applyReasoningMsgs, hfil, hco]
  · cases v with
    | str c => exact absurd hco (hc c)
    | null => simp only [applyReasoningMsgs, hfil, hco]
    | bool b => simp only [applyReasoningMsgs, hfil, hco]
    | num q => simp only [applyReasoningMsgs, hfil, hco]
    | arr l => simp only [applyReasoningMsgs, hfil, hco]
    | obj o => simp only [applyReasoningMsgs, hfil, hco]

/-- The reasoning merge keeps at least one system message around. -/
theorem applyReasoningMsgs_any (m : List JVal) (eff : String)
    (h : m.any isSystemMessage = true) :
    (applyReasoningMsgs m eff).any isSystemMessage = true := by
  rcases hfil : m.filter isSystemMessage with _ | ⟨fs, rest⟩
  · exact absurd hfil ((any_eq_true_iff_filter_ne_nil _ m).mp h)
  · rcases contentOf_cases fs with ⟨c, hc⟩ | hc
    · by_cases hs : reasoningSearch c
      · rw [applyReasoningMsgs_matched m eff fs rest hfil c hc hs]; exact h
      · rw [applyReasoningMsgs_merge m eff fs rest hfil c hc (by simpa using hs)]
        rw [any_eq_true_iff_filter_ne_nil,
          filter_modifyFirstSystem _ (isSystemMessage_setContent _) m, hfil]
        simp
    · rw [applyReasoningMsgs_nonstring m eff fs rest hfil hc]; exact h

/-- The reasoning merge is idempotent on the message list: a second pass
always finds a first system message whose content already matches
`REASONING_LINE_RE` (or is not a string) and leaves everything unchanged. -/
theorem applyReasoningMsgs_idem (m : List JVal) (eff : String)
    (heff : eff ∈ REASONING_LEVELS) :
    applyReasoningMsgs (applyReasoningMsgs m eff) eff
      = applyReasoningMsgs m eff := by
  rcases hfil : m.filter isSystemMessage with _ | ⟨fs, rest⟩
  · rw [applyReasoningMsgs_no_system m eff hfil]
    have hfil2 : (sysMessage ("Reasoning: " ++ eff) :: m).filter isSystemMessage
        = sysMessage ("Reasoning: " ++ eff) :: [] := by
      rw [List.filter_cons_of_pos (isSystemMessage_sysMessage _), hfil]
    exact applyReasoningMsgs_matched _ eff _ _ hfil2 _ rfl
      (reasoningSearch_reasoning_line heff)
  · have hfs : isSystemMessage fs = true :=
      List.of_mem_filter (show fs ∈ m.filter isSystemMessage by
        rw [hfil]; exact List.mem_cons_self fs rest)
    rcases contentOf_cases fs with ⟨c, hc⟩ | hc
    · by_cases hs : reasoningSearch c
      · rw [applyReasoningMsgs_matched m eff fs rest hfil c hc hs,
          applyReasoningMsgs_matched m eff fs rest hfil c hc hs]
      · have hsf : reasoningSearch c = false := by simpa using hs
        rw [applyReasoningMsgs_merge m eff fs rest hfil c hc hsf]
        have hfil2 : (modifyFirstSystem (setContent
              (if c = "" then "Reasoning: " ++ eff
               else "Reasoning: " ++ eff ++ "\n\n" ++ c)) m).filter
                isSystemMessage
            = setContent (if c = "" then "Reasoning: " ++ eff
                else "Reasoning: " ++ eff ++ "\n\n" ++ c) fs :: rest := by
          rw [filter_modifyFirstSystem _ (isSystemMessage_setContent _) m, hfil]
        obtain ⟨o, ho⟩ := isSystemMessage_is_obj hfs
        have hc2 : contentOf (setContent (if c = "" then "Reasoning: " ++ eff
              else "Reasoning: " ++ eff ++ "\n\n" ++ c) fs)
            = some (.str (if c = "" then "Reasoning: " ++ eff
                else "Reasoning: " ++ eff ++ "\n\n" ++ c)) := by
          rw [ho]; exact contentOf_setContent _ o
        have hs2 : reasoningSearch (if c = "" then "Reasoning: " ++ eff
            else "Reasoning: " ++ eff ++ "\n\n" ++ c) = true := by
          by_cases hce : c = ""
          · rw [if_pos hce]; exact reasoningSearch_reasoning_line heff
          · rw [if_neg hce]
            exact reasoningSearch_merge ("Reasoning: " ++ eff) c
              (reasoning_line_no_newline heff)
              (reasoningLineMatch_reasoning_line heff)
        exact applyReasoningMsgs_matched _ eff _ rest hfil2 _ hc2 hs2
    · rw [applyReasoningMsgs_nonstring m eff fs rest hfil hc,
        applyReasoningMsgs_nonstring m eff fs rest hfil hc]

/-- C6: applying profile defaults is idempotent on the message list — the
second application injects no second system message and no duplicate
`Reasoning:` line, leaving `payload["messages"]` exactly as after the
first application. -/
theorem C6_apply_defaults_idempotent (profile payload : PyDict) :
    alistGet (_apply_model_load_defaults_to_payload profile
        (_apply_model_load_defaults_to_payload profile payload).1).1 "messages"
      = alistGet (_apply_model_load_defaults_to_payload profile payload).1
          "messages" := by
  by_cases hemp : profile.isEmpty
  · simp [_apply_model_load_defaults_to_payload, hemp]
  · have hrw : ∀ q : PyDict, (_apply_model_load_defaults_to_payload profile q).1
        = (reStage profile (spStage profile
            (PROFILE_DEFAULT_APPLY_KEYS.foldl (fillKey profile) (q, [])))).1 := by
      intro q
      rw [_apply_model_load_defaults_to_payload, if_neg hemp]
    have hfill : ∀ q : PyDict,
        alistGet (PROFILE_DEFAULT_APPLY_KEYS.foldl (fillKey profile)
            (q, ([] : List String))).1 "messages" = alistGet q "messages" :=
      fun q => fill_foldl_get_not_mem profile _ (q, []) "messages" (by decide)
    have hfillm : ∀ q : PyDict,
        messagesOf (PROFILE_DEFAULT_APPLY_KEYS.foldl (fillKey profile)
            (q, ([] : List String))).1 = messagesOf q :=
      fun q => messagesOf_congr (hfill q)
    rcases hsp : spValidOf profile with _ | s <;>
      rcases hre : reValidOf profile with _ | e
    · -- no system prompt, no reasoning effort: messages never touched
      rw [hrw, hrw, reStage_eq_skip _ _ hre, reStage_eq_skip _ _ hre,
        spStage_eq_skip _ _ hsp, spStage_eq_skip _ _ hsp, hfill, hfill]
    · -- reasoning effort only
      have heff := reValidOf_mem hre
      have hP1 : alistGet (_apply_model_load_defaults_to_payload profile
            payload).1 "messages"
          = some (.arr (applyReasoningMsgs (messagesOf
              (PROFILE_DEFAULT_APPLY_KEYS.foldl (fillKey profile)
                (payload, [])).1) e)) := by
        rw [hrw, reStage_fst_valid _ _ e hre, spStage_eq_skip _ _ hsp,
          alistGet_set_self]
      rw [hrw (_apply_model_load_defaults_to_payload profile payload).1,
        reStage_fst_valid _ _ e hre, spStage_eq_skip _ _ hsp,
        alistGet_set_self, hP1]
      rw [hfillm, show messagesOf (_apply_model_load_defaults_to_payload
          profile payload).1 = applyReasoningMsgs (messagesOf
            (PROFILE_DEFAULT_APPLY_KEYS.foldl (fillKey profile)
              (payload, [])).1) e from by rw [messagesOf, hP1]]
      rw [applyReasoningMsgs_idem _ e heff]
    · -- system prompt only
      have hP1 : alistGet (_apply_model_load_defaults_to_payload profile
            payload).1 "messages"
          = some (.arr (applySystemPromptMsgs (messagesOf
              (PROFILE_DEFAULT_APPLY_KEYS.foldl (fillKey profile)
                (payload, [])).1) s)) := by
        rw [hrw, reStage_eq_skip _ _ hre, spStage_fst_valid _ _ s hsp,
          alistGet_set_self]
      rw [hrw (_apply_model_load_defaults_to_payload profile payload).1,
        reStage_eq_skip _ _ hre, spStage_fst_valid _ _ s hsp,
        alistGet_set_self, hP1]
      rw [hfillm, show messagesOf (_apply_model_load_defaults_to_payload
          profile payload).1 = applySystemPromptMsgs (messagesOf
            (PROFILE_DEFAULT_APPLY_KEYS.foldl (fillKey profile)
              (payload, [])).1) s from by rw [messagesOf, hP1]]
      rw [applySystemPromptMsgs_of_any _ s (applySystemPromptMsgs_any _ s)]
    · -- both blocks run
      have heff := reValidOf_mem hre
      have hmid : messagesOf (spStage profile
            (PROFILE_DEFAULT_APPLY_KEYS.foldl (fillKey profile)
              (payload, []))).1
          = applySystemPromptMsgs (messagesOf
              (PROFILE_DEFAULT_APPLY_KEYS.foldl (fillKey profile)
                (payload, [])).1) s := by
        rw [spStage_fst_valid _ _ s hsp, messagesOf_set]
      have hP1 : alistGet (_apply_model_load_defaults_to_payload profile
            payload).1 "messages"
          = some (.arr (applyReasoningMsgs (applySystemPromptMsgs (messagesOf
              (PROFILE_DEFAULT_APPLY_KEYS.foldl (fillKey profile)
                (payload, [])).1) s) e)) := by
        rw [hrw, reStage_fst_valid _ _ e hre, alistGet_set_self, hmid]
      have hany : (applyReasoningMsgs (applySystemPromptMsgs (messagesOf
            (PROFILE_DEFAULT_APPLY_KEYS.foldl (fillKey profile)
              (payload, [])).1) s) e).any isSystemMessage = true :=
        applyReasoningMsgs_any _ e (applySystemPromptMsgs_any _ s)
      have hmid2 : messagesOf (spStage profile
            (PROFILE_DEFAULT_APPLY_KEYS.foldl (fillKey profile)
              ((_apply_model_load_defaults_to_payload profile payload).1,
                []))).1
          = applyReasoningMsgs (applySystemPromptMsgs (messagesOf
              (PROFILE_DEFAULT_APPLY_KEYS.foldl (fillKey profile)
                (payload, [])).1) s) e := by
        rw [spStage_fst_valid _ _ s hsp, messagesOf_set, hfillm,
          show messagesOf (_apply_model_load_defaults_to_payload
              profile payload).1 = applyReasoningMsgs (applySystemPromptMsgs
                (messagesOf (PROFILE_DEFAULT_APPLY_KEYS.foldl (fillKey profile)
                  (payload, [])).1) s) e from by rw [messagesOf, hP1]]
        exact applySystemPromptMsgs_of_any _ s hany
      rw [hrw (_apply_model_load_defaults_to_payload profile payload).1,
        reStage_fst_valid _ _ e hre, alistGet_set_self, hmid2,
        applyReasoningMsgs_idem _ e heff, hP1]

/-! ## C7: split-model collapsing -/

theorem groupOf_mem {models : List JVal} {key : String × Nat}
    {e : Nat × JVal} (h : e ∈ groupOf models key) :
    e.2 ∈ models ∧ modelKey e.2 = some key := by
  rw [groupOf] at h
  obtain ⟨m, hm, hf⟩ := List.mem_filterMap.mp h
  rcases hsplit : modelSplit m with _ | x
  · rw [hsplit] at hf; exact absurd hf (by simp)
  · rw [hsplit] at hf
    simp only [] at hf
    by_cases hk : (x.1, x.2.2) = key
    · rw [if_pos hk] at hf
      obtain rfl := Option.some_injective _ hf
      have hkey : modelKey m = some key := by
        simp only [modelKey, hsplit, Option.map_some']
        exact congrArg some hk
      exact ⟨hm, hkey⟩
    · rw [if_neg hk] at hf; exact absurd hf (by simp)

theorem primaryOf_mem (entries : List (Nat × JVal)) (hne : entries ≠ []) :
    ∃ pe ∈ entries, primaryOf entries = pe.2 := by
  have hperm : List.Perm (sortByPart entries) entries :=
    List.perm_insertionSort _ entries
  rw [primaryOf]
  cases hfind : (sortByPart entries).find? (fun e => e.1 = 1) with
  | some e =>
    exact ⟨e, hperm.mem_iff.mp (List.mem_of_find?_eq_some hfind), rfl⟩
  | none =>
    rcases hs : sortByPart entries with _ | ⟨x, xs⟩
    · rw [hs] at hperm
      exact absurd hperm.symm.eq_nil hne
    · refine ⟨x, ?_, rfl⟩
      rw [hs] at hperm
      exact hperm.mem_iff.mp (List.mem_cons_self x xs)

theorem modelKey_set_status (po : PyDict) (v : JVal) :
    modelKey (.obj (alistSet po "status" v)) = modelKey (.obj po) := by
  simp only [modelKey, modelSplit,
    alistGet_set_ne po (by decide : ("id" : String) ≠ "status") v]

theorem mergeGroup_key (entries : List (Nat × JVal)) (key : String × Nat)
    (hne : entries ≠ []) (hkeys : ∀ e ∈ entries, modelKey e.2 = some key) :
    modelKey (mergeGroup entries) = some key := by
  obtain ⟨pe, hpe, hprim⟩ := primaryOf_mem entries hne
  have hpk : modelKey (primaryOf entries) = some key := by
    rw [hprim]; exact hkeys pe hpe
  simp only [mergeGroup]
  cases hp : primaryOf entries with
  | obj po =>
    rw [hp] at hpk
    simp only []
    cases hg : alistGet po "status" with
    | none => exact hpk
    | some v =>
      cases v with
      | obj st =>
        simp only []
        rw [modelKey_set_status]
        exact hpk
      | null => exact hpk
      | bool b => exact hpk
      | num q => exact hpk
      | str s => exact hpk
      | arr l => exact hpk
  | null => rw [hp] at hpk; exact hpk
  | bool b => rw [hp] at hpk; exact hpk
  | num q => rw [hp] at hpk; exact hpk
  | str s => rw [hp] at hpk; exact hpk
  | arr l => rw [hp] at hpk; exact hpk

theorem statusObjOf_shape {m : JVal} {st : PyDict}
    (h : statusObjOf m = some st) :
    ∃ po, m = JVal.obj po ∧ alistGet po "status" = some (.obj st) := by
  cases m with
  | obj po =>
    refine ⟨po, rfl, ?_⟩
    simp only [statusObjOf] at h
    cases hg : alistGet po "status" with
    | none => rw [hg] at h; simp at h
    | some v =>
      rw [hg] at h
      cases v with
      | obj st' => simp only [Option.some_inj] at h; rw [h]
      | null => simp at h
      | bool b => simp at h
      | num q => simp at h
      | str s => simp at h
      | arr l => simp at h
  | null => simp [statusObjOf] at h
  | bool b => simp [statusObjOf] at h
  | num q => simp [statusObjOf] at h
  | str s => simp [statusObjOf] at h
  | arr l => simp [statusObjOf] at h

/-- Counting pass of the second phase: each group key contributes exactly
one output entry, emitted at the first member encountered. -/
theorem collapseGo_countP (models : List JVal) (key : String × Nat)
    (hkeys : ∀ key' : String × Nat, groupOf models key' ≠ [] →
      modelKey (mergeGroup (groupOf models key')) = some key') :
    ∀ (ms : List JVal) (emitted : List (String × Nat)),
      (collapseGo models ms emitted).countP
          (fun m => decide (modelKey m = some key))
        = if key ∈ emitted then 0
          else if ms.any (fun m => decide (modelKey m = some key)) then 1
          else 0 := by
  intro ms
  induction ms with
  | nil =>
    intro emitted
    simp [collapseGo]
  | cons m rest ih =>
    intro emitted
    cases hmk : modelKey m with
    | none =>
      have hstep : collapseGo models (m :: rest) emitted
          = m :: collapseGo models rest emitted := by
        simp only [collapseGo, hmk]
      rw [hstep, List.countP_cons, ih emitted]
      simp [hmk]
    | some key' =>
      by_cases hkk : key = key'
      · subst hkk
        by_cases hemit : key ∈ emitted
        · have hstep : collapseGo models (m :: rest) emitted
              = collapseGo models rest emitted := by
            simp only [collapseGo, hmk, if_pos hemit]
          rw [hstep, ih emitted, if_pos hemit, if_pos hemit]
        · cases hgrp : groupOf models key with
          | nil =>
            have hstep : collapseGo models (m :: rest) emitted
                = m :: collapseGo models rest (key :: emitted) := by
              simp only [collapseGo, hmk, if_neg hemit, hgrp]
            rw [hstep, List.countP_cons, ih (key :: emitted),
              if_pos (List.mem_cons_self key emitted), if_neg hemit]
            simp [hmk]
          | cons e es =>
            have hstep : collapseGo models (m :: rest) emitted
                = mergeGroup (e :: es)
                    :: collapseGo models rest (key :: emitted) := by
              simp only [collapseGo, hmk, if_neg hemit, hgrp]
            have hmg : modelKey (mergeGroup (e :: es)) = some key := by
              rw [← hgrp]
              exact hkeys key (by rw [hgrp]; simp)
            rw [hstep, List.countP_cons, ih (key :: emitted),
              if_pos (List.mem_cons_self key emitted), if_neg hemit]
            simp [hmg, hmk]
      · have hpm : decide (modelKey m = some key) = false := by
          rw [hmk]
          exact decide_eq_false (fun h => hkk (Option.some_inj.mp h).symm)
        by_cases hemit : key' ∈ emitted
        · have hstep : collapseGo models (m :: rest) emitted
              = collapseGo models rest emitted := by
            simp only [collapseGo, hmk, if_pos hemit]
          rw [hstep, ih emitted]
          simp [hpm]
        · by_cases hkem : key ∈ emitted
          · cases hgrp : groupOf models key' with
            | nil =>
              have hstep : collapseGo models (m :: rest) emitted
                  = m :: collapseGo models rest (key' :: emitted) := by
                simp only [collapseGo, hmk, if_neg hemit, hgrp]
              rw [hstep, List.countP_cons, ih (key' :: emitted),
                if_pos (List.mem_cons_of_mem key' hkem), if_pos hkem]
              simp [hpm]
            | cons e es =>
              have hstep : collapseGo models (m :: rest) emitted
                  = mergeGroup (e :: es)
                      :: collapseGo models rest (key' :: emitted) := by
                simp only [collapseGo, hmk, if_neg hemit, hgrp]
              have hmg : modelKey (mergeGroup (e :: es)) = some key' := by
                rw [← hgrp]
                exact hkeys key' (by rw [hgrp]; simp)
              have hpmg : decide (modelKey (mergeGroup (e :: es)) = some key)
                  = false := by
                rw [hmg]
                exact decide_eq_false (fun h => hkk (Option.some_inj.mp h).symm)
              rw [hstep, List.countP_cons, ih (key' :: emitted),
                if_pos (List.mem_cons_of_mem key' hkem), if_pos hkem]
              simp [hpmg]
          · have hknotin : key ∉ key' :: emitted :=
              fun h => (List.mem_cons.mp h).elim (fun he => hkk he) hkem
            cases hgrp : groupOf models key' with
            | nil =>
              have hstep : collapseGo models (m :: rest) emitted
                  = m :: collapseGo models rest (key' :: emitted) := by
                simp only [collapseGo, hmk, if_neg hemit, hgrp]
              rw [hstep, List.countP_cons, ih (key' :: emitted),
                if_neg hknotin, if_neg hkem]
              have hkk2 : ¬(key' = key) := fun h => hkk h.symm
              simp [hpm, hmk, hkk2]
            | cons e es =>
              have hstep : collapseGo models (m :: rest) emitted
                  = mergeGroup (e :: es)
                      :: collapseGo models rest (key' :: emitted) := by
                simp only [collapseGo, hmk, if_neg hemit, hgrp]
              have hmg : modelKey (mergeGroup (e :: es)) = some key' := by
                rw [← hgrp]
                exact hkeys key' (by rw [hgrp]; simp)
              have hpmg : decide (modelKey (mergeGroup (e :: es)) = some key)
                  = false := by
                rw [hmg]
                exact decide_eq_false (fun h => hkk (Option.some_inj.mp h).symm)
              rw [hstep, List.countP_cons, ih (key' :: emitted),
                if_neg hknotin, if_neg hkem]
              have hkk2 : ¬(key' = key) := fun h => hkk h.symm
              simp [hpmg, hmk, hkk2]

/-- Non-split entries pass through the collapse unchanged and in order. -/
theorem collapseGo_filter_nonsplit (models : List JVal)
    (hkeys : ∀ key' : String × Nat, groupOf models key' ≠ [] →
      modelKey (mergeGroup (groupOf models key')) = some key') :
    ∀ (ms : List JVal) (emitted : List (String × Nat)),
      (collapseGo models ms emitted).filter (fun m => (modelKey m).isNone)
        = ms.filter (fun m => (modelKey m).isNone) := by
  intro ms
  induction ms with
  | nil => intro emitted; rfl
  | cons m rest ih =>
    intro emitted
    cases hmk : modelKey m with
    | none =>
      have hstep : collapseGo models (m :: rest) emitted
          = m :: collapseGo models rest emitted := by
        simp only [collapseGo, hmk]
      rw [hstep, List.filter_cons_of_pos (by simp [hmk]),
        List.filter_cons_of_pos (by simp [hmk]), ih emitted]
    | some key' =>
      by_cases hemit : key' ∈ emitted
      · have hstep : collapseGo models (m :: rest) emitted
            = collapseGo models rest emitted := by
          simp only [collapseGo, hmk, if_pos hemit]
        rw [hstep, ih emitted, List.filter_cons_of_neg (by simp [hmk])]
      · cases hgrp : groupOf models key' with
        | nil =>
          have hstep : collapseGo models (m :: rest) emitted
              = m :: collapseGo models rest (key' :: emitted) := by
            simp only [collapseGo, hmk, if_neg hemit, hgrp]
          rw [hstep, List.filter_cons_of_neg (by simp [hmk]),
            List.filter_cons_of_neg (by simp [hmk]), ih (key' :: emitted)]
        | cons e es =>
          have hstep : collapseGo models (m :: rest) emitted
              = mergeGroup (e :: es)
                  :: collapseGo models rest (key' :: emitted) := by
            simp only [collapseGo, hmk, if_neg hemit, hgrp]
          have hmg : modelKey (mergeGroup (e :: es)) = some key' := by
            rw [← hgrp]
            exact hkeys key' (by rw [hgrp]; simp)
          rw [hstep, List.filter_cons_of_neg (by simp [hmg]),
            List.filter_cons_of_neg (by simp [hmk]), ih (key' :: emitted)]

/-- Every output entry carrying a given group key is the merge of that
group. -/
theorem collapseGo_keyed_mem (models : List JVal) (key : String × Nat)
    (hne : groupOf models key ≠ [])
    (hkeys : ∀ key' : String × Nat, groupOf models key' ≠ [] →
      modelKey (mergeGroup (groupOf models key')) = some key') :
    ∀ (ms : List JVal) (emitted : List (String × Nat)) (o : JVal),
      o ∈ collapseGo models ms emitted → modelKey o = some key →
      o = mergeGroup (groupOf models key) := by
  intro ms
  induction ms with
  | nil => intro emitted o ho _; simp [collapseGo] at ho
  | cons m rest ih =>
    intro emitted o ho hko
    cases hmk : modelKey m with
    | none =>
      rw [show collapseGo models (m :: rest) emitted
          = m :: collapseGo models rest emitted from by
            simp only [collapseGo, hmk]] at ho
      rcases List.mem_cons.mp ho with rfl | ho'
      · rw [hmk] at hko; exact absurd hko (by simp)
      · exact ih emitted o ho' hko
    | some key' =>
      by_cases hemit : key' ∈ emitted
      · rw [show collapseGo models (m :: rest) emitted
            = collapseGo models rest emitted from by
              simp only [collapseGo, hmk, if_pos hemit]] at ho
        exact ih emitted o ho hko
      · cases hgrp : groupOf models key' with
        | nil =>
          rw [show collapseGo models (m :: rest) emitted
              = m :: collapseGo models rest (key' :: emitted) from by
                simp only [collapseGo, hmk, if_neg hemit, hgrp]] at ho
          rcases List.mem_cons.mp ho with rfl | ho'
          · rw [hmk] at hko
            obtain rfl : key' = key := by simpa using hko
            exact absurd hgrp hne
          · exact ih (key' :: emitted) o ho' hko
        | cons e es =>
          rw [show collapseGo models (m :: rest) emitted
              = mergeGroup (e :: es)
                  :: collapseGo models rest (key' :: emitted) from by
                simp only [collapseGo, hmk, if_neg hemit, hgrp]] at ho
          rcases List.mem_cons.mp ho with rfl | ho'
          · have hmg : modelKey (mergeGroup (groupOf models key'))
                = some key' := hkeys key' (by rw [hgrp]; simp)
            rw [hgrp] at hmg
            rw [hmg] at hko
            obtain rfl : key' = key := by simpa using hko
            rw [hgrp]
          · exact ih (key' :: emitted) o ho' hko

theorem eqStr_getD_iff (v : Option JVal) (s : String) :
    ((v.getD .null).eqStr s = true) ↔ v = some (.str s) := by
  cases v with
  | none => simp [JVal.eqStr]
  | some w =>
    cases w with
    | str t => simp [JVal.eqStr]
    | null => simp [JVal.eqStr]
    | bool b => simp [JVal.eqStr]
    | num q => simp [JVal.eqStr]
    | arr l => simp [JVal.eqStr]
    | obj o => simp [JVal.eqStr]

theorem statusValues_cons_obj (x : Nat × JVal) (xs : List (Nat × JVal))
    (st : PyDict) (h : statusObjOf x.2 = some st) :
    statusValues (x :: xs) = alistGet st "value" :: statusValues xs := by
  obtain ⟨po, hpo, hg⟩ := statusObjOf_shape h
  rcases x with ⟨p, m⟩
  simp only [] at hpo
  subst hpo
  rw [statusValues, List.filterMap_cons]
  simp only [hg]
  rfl

theorem statusValOf_of_obj {m : JVal} {st : PyDict}
    (h : statusObjOf m = some st) : statusValOf m = alistGet st "value" := by
  rw [statusValOf, h]
  rfl

theorem statusValues_eq_map :
    ∀ (l : List (Nat × JVal)),
      (∀ x ∈ l, (statusObjOf x.2).isSome = true) →
      statusValues l = l.map (fun x => statusValOf x.2) := by
  intro l
  induction l with
  | nil => intro _; rfl
  | cons x xs ih =>
    intro h
    obtain ⟨st, hst⟩ :=
      Option.isSome_iff_exists.mp (h x (List.mem_cons_self x xs))
    rw [statusValues_cons_obj x xs st hst, List.map_cons,
      ih (fun y hy => h y (List.mem_cons_of_mem _ hy)),
      statusValOf_of_obj hst]

theorem anyVal_map_iff (l : List (Nat × JVal)) (s : String) :
    anyVal (l.map (fun x => statusValOf x.2)) s = true ↔
      ∃ x ∈ l, statusValOf x.2 = some (.str s) := by
  rw [anyVal, List.any_eq_true]
  constructor
  · rintro ⟨v, hv, hpv⟩
    obtain ⟨x, hx, rfl⟩ := List.mem_map.mp hv
    exact ⟨x, hx, (eqStr_getD_iff _ s).mp hpv⟩
  · rintro ⟨x, hx, hpx⟩
    exact ⟨statusValOf x.2, List.mem_map.mpr ⟨x, hx, rfl⟩,
      (eqStr_getD_iff _ s).mpr hpx⟩

theorem allUnloaded_map (l : List (Nat × JVal))
    (h : ∀ x ∈ l, statusValOf x.2 = some (.str "unloaded")) :
    allUnloaded (l.map (fun x => statusValOf x.2)) = true := by
  rw [allUnloaded, List.all_eq_true]
  intro v hv
  obtain ⟨x, hx, rfl⟩ := List.mem_map.mp hv
  rw [h x hx]
  rfl

theorem mergeStatusObj_get_value (st : PyDict) (vals : List (Option JVal))
    (fb : Bool) :
    alistGet (mergeStatusObj st vals fb) "value"
      = (if anyVal vals "loaded" then some (.str "loaded")
         else if anyVal vals "loading" then some (.str "loading")
         else if anyVal vals "unloading" then some (.str "unloading")
         else if allUnloaded vals then some (.str "unloaded")
         else alistGet st "value") := by
  simp only [mergeStatusObj]
  cases fb with
  | false =>
    rw [if_neg (by simp : ¬(false = true))]
    split_ifs <;> simp [alistGet_set_self]
  | true =>
    rw [if_pos (by trivial),
      alistGet_set_ne _ (by decide : ("value" : String) ≠ "failed") _]
    split_ifs <;> simp [alistGet_set_self]

theorem mergeStatusObj_get_failed (st : PyDict) (vals : List (Option JVal)) :
    alistGet (mergeStatusObj st vals true) "failed" = some (.bool true) := by
  simp only [mergeStatusObj]
  rw [if_pos (by trivial), alistGet_set_self]

/-- Status semantics of the merged entry of one split group whose parts all
carry status dicts: most-permissive status wins, and `failed` is set when
any part failed. -/
theorem mergeGroup_status (G : List (Nat × JVal)) (hne : G ≠ [])
    (hst : ∀ x ∈ G, (statusObjOf x.2).isSome = true) :
    ((∃ x ∈ G, statusValOf x.2 = some (.str "loaded")) →
        statusValOf (mergeGroup G) = some (.str "loaded")) ∧
    ((¬∃ x ∈ G, statusValOf x.2 = some (.str "loaded")) →
      (∃ x ∈ G, statusValOf x.2 = some (.str "loading")) →
        statusValOf (mergeGroup G) = some (.str "loading")) ∧
    ((¬∃ x ∈ G, statusValOf x.2 = some (.str "loaded")) →
      (¬∃ x ∈ G, statusValOf x.2 = some (.str "loading")) →
      (∃ x ∈ G, statusValOf x.2 = some (.str "unloading")) →
        statusValOf (mergeGroup G) = some (.str "unloading")) ∧
    ((∀ x ∈ G, statusValOf x.2 = some (.str "unloaded")) →
        statusValOf (mergeGroup G) = some (.str "unloaded")) ∧
    ((∃ x ∈ G, _status_failed x.2 = true) →
      ∃ st, statusObjOf (mergeGroup G) = some st ∧
        alistGet st "failed" = some (.bool true)) := by
  have hperm : List.Perm (sortByPart G) G := List.perm_insertionSort _ G
  obtain ⟨pe, hpe, hprim⟩ := primaryOf_mem G hne
  obtain ⟨st0, hst0⟩ := Option.isSome_iff_exists.mp (hst pe hpe)
  have hprimst : statusObjOf (primaryOf G) = some st0 := by
    rw [hprim]; exact hst0
  obtain ⟨po, hpo, hg⟩ := statusObjOf_shape hprimst
  have hmg : mergeGroup G = .obj (alistSet po "status"
      (.obj (mergeStatusObj st0 (statusValues (sortByPart G))
        ((sortByPart G).any (fun e => _status_failed e.2))))) := by
    simp only [mergeGroup]
    rw [hpo]
    simp only []
    rw [hg]
  have hobj : statusObjOf (mergeGroup G)
      = some (mergeStatusObj st0 (statusValues (sortByPart G))
          ((sortByPart G).any (fun e => _status_failed e.2))) := by
    rw [hmg]
    simp only [statusObjOf]
    rw [alistGet_set_self]
  have hvals : statusValues (sortByPart G)
      = (sortByPart G).map (fun x => statusValOf x.2) :=
    statusValues_eq_map _ (fun y hy => hst y (hperm.mem_iff.mp hy))
  have hval : statusValOf (mergeGroup G)
      = alistGet (mergeStatusObj st0 (statusValues (sortByPart G))
          ((sortByPart G).any (fun e => _status_failed e.2))) "value" :=
    statusValOf_of_obj hobj
  have hex : ∀ s : String, (anyVal (statusValues (sortByPart G)) s = true)
      ↔ ∃ x ∈ G, statusValOf x.2 = some (.str s) := by
    intro s
    rw [hvals, anyVal_map_iff]
    constructor
    · rintro ⟨x, hx, hpx⟩; exact ⟨x, hperm.mem_iff.mp hx, hpx⟩
    · rintro ⟨x, hx, hpx⟩; exact ⟨x, hperm.mem_iff.mpr hx, hpx⟩
  have hfail_iff : ((sortByPart G).any (fun e => _status_failed e.2) = true)
      ↔ ∃ x ∈ G, _status_failed x.2 = true := by
    rw [List.any_eq_true]
    constructor
    · rintro ⟨x, hx, hpx⟩; exact ⟨x, hperm.mem_iff.mp hx, hpx⟩
    · rintro ⟨x, hx, hpx⟩; exact ⟨x, hperm.mem_iff.mpr hx, hpx⟩
  refine ⟨?_, ?_, ?_, ?_, ?_⟩
  · intro hl
    rw [hval, mergeStatusObj_get_value, if_pos ((hex "loaded").mpr hl)]
  · intro hnl hlg
    rw [hval, mergeStatusObj_get_value,
      if_neg (fun hc => hnl ((hex "loaded").mp hc)),
      if_pos ((hex "loading").mpr hlg)]
  · intro hnl hnlg hul
    rw [hval, mergeStatusObj_get_value,
      if_neg (fun hc => hnl ((hex "loaded").mp hc)),
      if_neg (fun hc => hnlg ((hex "loading").mp hc)),
      if_pos ((hex "unloading").mpr hul)]
  · intro hall
    have hnone : ∀ s : String, s ≠ "unloaded" →
        ¬(anyVal (statusValues (sortByPart G)) s = true) := by
      intro s hs hc
      obtain ⟨x, hx, hpx⟩ := (hex s).mp hc
      rw [hall x hx] at hpx
      exact hs (by simpa using hpx.symm)
    have hallun : allUnloaded (statusValues (sortByPart G)) = true := by
      rw [hvals]
      exact allUnloaded_map _ (fun x hx => hall x (hperm.mem_iff.mp hx))
    rw [hval, mergeStatusObj_get_value,
      if_neg (hnone "loaded" (by decide)),
      if_neg (hnone "loading" (by decide)),
      if_neg (hnone "unloading" (by decide)),
      if_pos hallun]
  · intro hfail
    refine ⟨_, hobj, ?_⟩
    rw [hfail_iff.mpr hfail]
    exact mergeStatusObj_get_failed st0 _

/-- C7: for a model list containing split entries `base-K-of-N`, collapsing
produces exactly one entry per `(base, N)` group; the merged status value is
`loaded` if any part is loaded, else `loading` if any part is loading, else
`unloading` if any part is unloading, else `unloaded` when all parts are
unloaded; the merged entry is marked failed when any part failed; non-split
entries pass through unchanged. Split entries are assumed to carry status
dicts, as the backend registry reports them. -/
theorem C7_split_model_collapse (models : List JVal) (key : String × Nat)
    (hmem : ∃ m ∈ models, modelKey m = some key)
    (hst : ∀ m ∈ models, (modelSplit m).isSome = true →
      (statusObjOf m).isSome = true) :
    ((_collapse_split_models models).countP
        (fun m => decide (modelKey m = some key)) = 1) ∧
    ((_collapse_split_models models).filter (fun m => (modelKey m).isNone)
        = models.filter (fun m => (modelKey m).isNone)) ∧
    (∀ o ∈ _collapse_split_models models, modelKey o = some key →
      ((∃ x ∈ groupOf models key, statusValOf x.2 = some (.str "loaded")) →
          statusValOf o = some (.str "loaded")) ∧
      ((¬∃ x ∈ groupOf models key, statusValOf x.2 = some (.str "loaded")) →
        (∃ x ∈ groupOf models key, statusValOf x.2 = some (.str "loading")) →
          statusValOf o = some (.str "loading")) ∧
      ((¬∃ x ∈ groupOf models key, statusValOf x.2 = some (.str "loaded")) →
        (¬∃ x ∈ groupOf models key, statusValOf x.2 = some (.str "loading")) →
        (∃ x ∈ groupOf models key,
            statusValOf x.2 = some (.str "unloading")) →
          statusValOf o = some (.str "unloading")) ∧
      ((∀ x ∈ groupOf models key, statusValOf x.2 = some (.str "unloaded")) →
          statusValOf o = some (.str "unloaded")) ∧
      ((∃ x ∈ groupOf models key, _status_failed x.2 = true) →
        ∃ st, statusObjOf o = some st ∧
          alistGet st "failed" = some (.bool true))) := by
  obtain ⟨m0, hm0, hk0⟩ := hmem
  have hkeys : ∀ key' : String × Nat, groupOf models key' ≠ [] →
      modelKey (mergeGroup (groupOf models key')) = some key' := by
    intro key' hne'
    exact mergeGroup_key _ key' hne' (fun e he => (groupOf_mem he).2)
  have hne : groupOf models key ≠ [] := by
    rcases hsp : modelSplit m0 with _ | x
    · rw [modelKey, hsp] at hk0; simp at hk0
    · have hkx : (x.1, x.2.2) = key := by
        rw [modelKey, hsp] at hk0; simpa using hk0
      have hmem2 : (x.2.1, m0) ∈ groupOf models key := by
        rw [groupOf]
        refine List.mem_filterMap.mpr ⟨m0, hm0, ?_⟩
        rw [hsp]
        simp only []
        rw [if_pos hkx]
      intro hnil
      rw [hnil] at hmem2
      exact absurd hmem2 (List.not_mem_nil _)
  have hall : ¬(models.all (fun m => (modelKey m).isNone) = true) := by
    intro hc
    have h2 := (List.all_eq_true.mp hc) m0 hm0
    rw [hk0] at h2
    simp at h2
  have hcol : _collapse_split_models models = collapseGo models models [] := by
    rw [_collapse_split_models, if_neg hall]
  have hstg : ∀ x ∈ groupOf models key, (statusObjOf x.2).isSome = true := by
    intro x hx
    obtain ⟨hxm, hxk⟩ := groupOf_mem hx
    have hsplit : (modelSplit x.2).isSome = true := by
      rw [modelKey] at hxk
      cases hms : modelSplit x.2 with
      | none => rw [hms] at hxk; simp at hxk
      | some y => simp
    exact hst x.2 hxm hsplit
  refine ⟨?_, ?_, ?_⟩
  · rw [hcol, collapseGo_countP models key hkeys models [],
      if_neg (List.not_mem_nil key),
      if_pos (List.any_eq_true.mpr ⟨m0, hm0, by simp [hk0]⟩)]
  · rw [hcol]
    exact collapseGo_filter_nonsplit models hkeys models []
  · intro o ho hko
    rw [hcol] at ho
    have ho2 : o = mergeGroup (groupOf models key) :=
      collapseGo_keyed_mem models key hne hkeys models [] o ho hko
    rw [ho2]
    exact mergeGroup_status (groupOf models key) hne hstg

/-- Witness for C7 at the two-part example `foo-1-of-2` (loaded) and
`foo-2-of-2` (unloaded), observed at group key `("foo", 2)`. -/
theorem C7_split_model_collapse_witness :
    (∃ m ∈ c7ExampleModels, modelKey m = some ("foo", 2)) ∧
    (∀ m ∈ c7ExampleModels, (modelSplit m).isSome = true →
      (statusObjOf m).isSome = true) ∧
    (((_collapse_split_models c7ExampleModels).countP
        (fun m => decide (modelKey m = some ("foo", 2))) = 1) ∧
    ((_collapse_split_models c7ExampleModels).filter
          (fun m => (modelKey m).isNone)
        = c7ExampleModels.filter (fun m => (modelKey m).isNone)) ∧
    (∀ o ∈ _collapse_split_models c7ExampleModels,
      modelKey o = some ("foo", 2) →
      ((∃ x ∈ groupOf c7ExampleModels ("foo", 2),
          statusValOf x.2 = some (.str "loaded")) →
          statusValOf o = some (.str "loaded")) ∧
      ((¬∃ x ∈ groupOf c7ExampleModels ("foo", 2),
          statusValOf x.2 = some (.str "loaded")) →
        (∃ x ∈ groupOf c7ExampleModels ("foo", 2),
          statusValOf x.2 = some (.str "loading")) →
          statusValOf o = some (.str "loading")) ∧
      ((¬∃ x ∈ groupOf c7ExampleModels ("foo", 2),
          statusValOf x.2 = some (.str "loaded")) →
        (¬∃ x ∈ groupOf c7ExampleModels ("foo", 2),
          statusValOf x.2 = some (.str "loading")) →
        (∃ x ∈ groupOf c7ExampleModels ("foo", 2),
            statusValOf x.2 = some (.str "unloading")) →
          statusValOf o = some (.str "unloading")) ∧
      ((∀ x ∈ groupOf c7ExampleModels ("foo", 2),
          statusValOf x.2 = some (.str "unloaded")) →
          statusValOf o = some (.str "unloaded")) ∧
      ((∃ x ∈ groupOf c7ExampleModels ("foo", 2), _status_failed x.2 = true) →
        ∃ st, statusObjOf o = some st ∧
          alistGet st "failed" = some (.bool true)))) :=
  ⟨by decide, by decide,
    C7_split_model_collapse c7ExampleModels ("foo", 2) (by decide) (by decide)⟩

end Synapse
